import Mathlib

/-!
# Verification of the wgpu_viewer pipe-mesh builder and orbit camera

Shallow embedding, in Lean 4, of the numerically interesting parts of the
`wgpu_viewer` repository:

* `src/model_pipe.rs` — `create_cylinder_for_pipe` and the segment loop of
  `PipeModel::new`;
* `src/pipe_line.rs` — `create_cylinder_for_line` and the segment loop of
  `PipeLineModel::new`;
* `src/camera.rs` — `Camera::update_position`, `Camera::pan`,
  `Camera::reset_to_initial` and `CameraController::update_camera`.

`f32` scalars are modelled as real numbers (`ℝ`); `u32` counters and mesh
indices are modelled as `ℕ` (the vertex counts reachable in practice are far
below `2^32`, so wrap-around never occurs on the modelled quantities).
`cgmath::Vector3<f32>` is modelled by the structure `V3` below, with the
`cgmath` operations (`dot`, `cross`, `magnitude`, `normalize`) transcribed
componentwise.  `cgmath::Quaternion<f32>` is modelled by Mathlib's
`Quaternion ℝ` (the Hamilton product of `cgmath` agrees with Mathlib's
quaternion multiplication), with `from_axis_angle`, `rotate_vector` and
`normalize` transcribed from `cgmath`'s definitions.
-/

noncomputable section

/-- Model of `cgmath::Vector3<f32>` (components as reals). -/
@[ext]
structure V3 where
  x : ℝ
  y : ℝ
  z : ℝ

namespace V3

def add (a b : V3) : V3 := ⟨a.x + b.x, a.y + b.y, a.z + b.z⟩

def sub (a b : V3) : V3 := ⟨a.x - b.x, a.y - b.y, a.z - b.z⟩

def neg (a : V3) : V3 := ⟨-a.x, -a.y, -a.z⟩

def smul (r : ℝ) (a : V3) : V3 := ⟨r * a.x, r * a.y, r * a.z⟩

instance : Add V3 := ⟨add⟩

instance : Sub V3 := ⟨sub⟩

instance : Neg V3 := ⟨neg⟩

instance : SMul ℝ V3 := ⟨smul⟩

instance : Zero V3 := ⟨⟨0, 0, 0⟩⟩

@[simp] theorem add_x (a b : V3) : (a + b).x = a.x + b.x := rfl

@[simp] theorem add_y (a b : V3) : (a + b).y = a.y + b.y := rfl

@[simp] theorem add_z (a b : V3) : (a + b).z = a.z + b.z := rfl

@[simp] theorem sub_x (a b : V3) : (a - b).x = a.x - b.x := rfl

@[simp] theorem sub_y (a b : V3) : (a - b).y = a.y - b.y := rfl

@[simp] theorem sub_z (a b : V3) : (a - b).z = a.z - b.z := rfl

@[simp] theorem neg_x (a : V3) : (-a).x = -a.x := rfl

@[simp] theorem neg_y (a : V3) : (-a).y = -a.y := rfl

@[simp] theorem neg_z (a : V3) : (-a).z = -a.z := rfl

@[simp] theorem smul_x (r : ℝ) (a : V3) : (r • a).x = r * a.x := rfl

@[simp] theorem smul_y (r : ℝ) (a : V3) : (r • a).y = r * a.y := rfl

@[simp] theorem smul_z (r : ℝ) (a : V3) : (r • a).z = r * a.z := rfl

@[simp] theorem zero_x : (0 : V3).x = 0 := rfl

@[simp] theorem zero_y : (0 : V3).y = 0 := rfl

@[simp] theorem zero_z : (0 : V3).z = 0 := rfl

@[simp] theorem mk_x (a b c : ℝ) : (V3.mk a b c).x = a := rfl

@[simp] theorem mk_y (a b c : ℝ) : (V3.mk a b c).y = b := rfl

@[simp] theorem mk_z (a b c : ℝ) : (V3.mk a b c).z = c := rfl

/-- `cgmath` dot product. -/
def dot (a b : V3) : ℝ := a.x * b.x + a.y * b.y + a.z * b.z

/-- `cgmath` cross product. -/
def cross (a b : V3) : V3 :=
  ⟨a.y * b.z - a.z * b.y, a.z * b.x - a.x * b.z, a.x * b.y - a.y * b.x⟩

/-- `cgmath` `magnitude` (`sqrt` of the dot product with itself). -/
def magnitude (a : V3) : ℝ := Real.sqrt (dot a a)

/-- `cgmath` `normalize` (`self * (1 / magnitude)`). -/
def normalize (a : V3) : V3 := (1 / a.magnitude) • a

theorem dot_self_nonneg (a : V3) : 0 ≤ dot a a := by
  have hx := sq_nonneg a.x
  have hy := sq_nonneg a.y
  have hz := sq_nonneg a.z
  simp only [dot]; nlinarith

theorem dot_comm (a b : V3) : dot a b = dot b a := by
  simp only [dot]; ring

@[simp] theorem magnitude_sq (a : V3) : a.magnitude ^ 2 = dot a a := by
  simpa [magnitude] using Real.sq_sqrt (dot_self_nonneg a)

theorem magnitude_nonneg (a : V3) : 0 ≤ a.magnitude := Real.sqrt_nonneg _

theorem dot_add_left (a b c : V3) : dot (a + b) c = dot a c + dot b c := by
  simp [dot]; ring

theorem dot_add_right (a b c : V3) : dot a (b + c) = dot a b + dot a c := by
  simp [dot]; ring

theorem dot_sub_left (a b c : V3) : dot (a - b) c = dot a c - dot b c := by
  simp [dot]; ring

theorem dot_sub_right (a b c : V3) : dot a (b - c) = dot a b - dot a c := by
  simp [dot]; ring

theorem dot_neg_left (a b : V3) : dot (-a) b = -dot a b := by
  simp [dot]; ring

theorem dot_neg_right (a b : V3) : dot a (-b) = -dot a b := by
  simp [dot]; ring

theorem dot_smul_left (r : ℝ) (a b : V3) : dot (r • a) b = r * dot a b := by
  simp [dot]; ring

theorem dot_smul_right (r : ℝ) (a b : V3) : dot a (r • b) = r * dot a b := by
  simp [dot]; ring

theorem cross_self (a : V3) : cross a a = 0 := by
  ext <;> simp [cross] <;> ring

theorem cross_dot_left (a b : V3) : dot (cross a b) a = 0 := by
  simp [dot, cross]; ring

theorem cross_dot_right (a b : V3) : dot (cross a b) b = 0 := by
  simp [dot, cross]; ring

theorem dot_cross_right (a b c : V3) : dot a (cross b c) = dot (cross b c) a := dot_comm _ _

/-- Lagrange identity for the cross product. -/
theorem lagrange_identity (a b : V3) :
    dot (cross a b) (cross a b) = dot a a * dot b b - dot a b ^ 2 := by
  simp [dot, cross]; ring

/-- Cauchy–Schwarz, from the Lagrange identity. -/
theorem dot_sq_le (a b : V3) : dot a b ^ 2 ≤ dot a a * dot b b := by
  have h := dot_self_nonneg (cross a b)
  rw [lagrange_identity] at h
  linarith

theorem cross_smul_left (r : ℝ) (a b : V3) : cross (r • a) b = r • cross a b := by
  ext <;> simp [cross] <;> ring

theorem cross_smul_right (r : ℝ) (a b : V3) : cross a (r • b) = r • cross a b := by
  ext <;> simp [cross] <;> ring

theorem cross_add_left (a b c : V3) : cross (a + b) c = cross a c + cross b c := by
  ext <;> simp [cross] <;> ring

theorem cross_add_right (a b c : V3) : cross a (b + c) = cross a b + cross a c := by
  ext <;> simp [cross] <;> ring

theorem cross_neg_left (a b : V3) : cross (-a) b = -cross a b := by
  ext <;> simp [cross] <;> ring

theorem cross_neg_right (a b : V3) : cross a (-b) = -cross a b := by
  ext <;> simp [cross] <;> ring

/-- Vector triple product: `a × (b × c) = (a·c)·b − (a·b)·c`. -/
theorem triple_product (a b c : V3) :
    cross a (cross b c) = dot a c • b - dot a b • c := by
  ext <;> simp [cross, dot] <;> ring

/-- Cross product of two linear combinations over the same pair of vectors. -/
theorem cross_lincomb (a b c d : ℝ) (P B : V3) :
    cross (a • P + b • B) (c • P + d • B) = (a * d - b * c) • cross P B := by
  ext <;> simp [cross] <;> ring

theorem magnitude_pos (v : V3) (h : 0 < dot v v) : 0 < v.magnitude :=
  Real.sqrt_pos.mpr h

theorem dot_normalize_self (v : V3) (h : 0 < dot v v) :
    dot v.normalize v.normalize = 1 := by
  have hm : 0 < v.magnitude := magnitude_pos v h
  have hsq := magnitude_sq v
  rw [normalize, dot_smul_left, dot_smul_right, ← hsq]
  field_simp
  nlinarith [hsq]

theorem magnitude_normalize (v : V3) (h : 0 < dot v v) :
    v.normalize.magnitude = 1 := by
  rw [magnitude, dot_normalize_self v h, Real.sqrt_one]

theorem normalize_of_unit (v : V3) (h : dot v v = 1) : v.normalize = v := by
  rw [normalize, magnitude, h, Real.sqrt_one]
  ext <;> simp

theorem dot_normalize_left (v w : V3) : dot v.normalize w = (1 / v.magnitude) * dot v w := by
  rw [normalize, dot_smul_left]

end V3

/-! ## Pipe mesh builder (src/model_pipe.rs and src/pipe_line.rs) -/

/-- `PipeSegment` from src/model_pipe.rs (the `end` field is called `end_`
because `end` is a Lean keyword; the `[f32; 3]` color is modelled as `V3`). -/
structure PipeSegment where
  start : V3
  end_ : V3
  color : V3
  radius : ℝ

/-- `PipeVertex` from src/model_pipe.rs. -/
structure PipeVertex where
  position : V3
  color : V3

/-- `LineSegment` from src/pipe_line.rs. -/
structure LineSegment where
  start : V3
  end_ : V3
  color : V3
  radius : ℝ

/-- `PipeVertex` from src/pipe_line.rs (this variant also stores a normal). -/
structure LinePipeVertex where
  position : V3
  normal : V3
  color : V3

/-- Rim vertex position: `base + radius * (cos(angle)*perpendicular + sin(angle)*binormal)`
with `angle = i * 2 * PI / sides` (both builders use this same formula). -/
def rimVertexPos (base : V3) (radius : ℝ) (perpendicular binormal : V3) (sides i : ℕ) : V3 :=
  let angle := (i : ℝ) * 2 * Real.pi / (sides : ℝ)
  base + radius • (Real.cos angle • perpendicular + Real.sin angle • binormal)

/-- Vertex list pushed by `create_cylinder_for_pipe` (model_pipe.rs lines 303-341):
bottom-cap center, `sides` bottom rim vertices, top-cap center, `sides` top rim
vertices, all carrying the segment color. -/
def cylinderVertices (segment : PipeSegment) (sides : ℕ) (perpendicular binormal : V3) :
    List PipeVertex :=
  [⟨segment.start, segment.color⟩]
    ++ (List.range sides).map
        (fun i => ⟨rimVertexPos segment.start segment.radius perpendicular binormal sides i,
                   segment.color⟩)
    ++ [⟨segment.end_, segment.color⟩]
    ++ (List.range sides).map
        (fun i => ⟨rimVertexPos segment.end_ segment.radius perpendicular binormal sides i,
                   segment.color⟩)

/-- Vertex list pushed by `create_cylinder_for_line` (pipe_line.rs lines 138-180);
same positions, with cap normals `-axis` (bottom) and `axis` (top). -/
def cylinderVerticesLine (segment : LineSegment) (sides : ℕ) (axis perpendicular binormal : V3) :
    List LinePipeVertex :=
  [⟨segment.start, -axis, segment.color⟩]
    ++ (List.range sides).map
        (fun i => ⟨rimVertexPos segment.start segment.radius perpendicular binormal sides i,
                   -axis, segment.color⟩)
    ++ [⟨segment.end_, axis, segment.color⟩]
    ++ (List.range sides).map
        (fun i => ⟨rimVertexPos segment.end_ segment.radius perpendicular binormal sides i,
                   axis, segment.color⟩)

/-- Bottom cap index triples `(0, 1+(i+1)%sides, 1+i)` (identical in both builders). -/
def bottomCapIndices (sides : ℕ) : List ℕ :=
  (List.range sides).flatMap fun i => [0, 1 + (i + 1) % sides, 1 + i]

/-- Top cap index triples `(1+sides, 1+sides+1+i, 1+sides+1+(i+1)%sides)`
(identical in both builders; `top_center_idx = 1 + sides`). -/
def topCapIndices (sides : ℕ) : List ℕ :=
  (List.range sides).flatMap fun i =>
    [1 + sides, 1 + sides + 1 + i, 1 + sides + 1 + (i + 1) % sides]

/-- Side-wall index triples of model_pipe.rs (lines 364-381):
`(bottom_curr, bottom_next, top_curr)` and `(top_curr, bottom_next, top_next)`. -/
def sideIndicesPipe (sides : ℕ) : List ℕ :=
  (List.range sides).flatMap fun i =>
    [1 + i, 1 + (i + 1) % sides, 1 + sides + 1 + i,
     1 + sides + 1 + i, 1 + (i + 1) % sides, 1 + sides + 1 + (i + 1) % sides]

/-- Side-wall index triples of pipe_line.rs (lines 203-221):
`(bottom_curr, top_curr, top_next)` and `(bottom_curr, top_next, bottom_next)`. -/
def sideIndicesLine (sides : ℕ) : List ℕ :=
  (List.range sides).flatMap fun i =>
    [1 + i, 1 + sides + 1 + i, 1 + sides + 1 + (i + 1) % sides,
     1 + i, 1 + sides + 1 + (i + 1) % sides, 1 + (i + 1) % sides]

/-- `create_cylinder_for_pipe` (src/model_pipe.rs lines 268-384). -/
def create_cylinder_for_pipe (segment : PipeSegment) (sides : ℕ) :
    List PipeVertex × List ℕ :=
  let direction := segment.end_ - segment.start
  if direction.magnitude < 1e-6 then ([], [])
  else
    let axis := direction.normalize
    let perpendicular :=
      if |axis.z| < 0.9 then ((V3.mk 0 0 1).cross axis).normalize
      else ((V3.mk 1 0 0).cross axis).normalize
    let binormal := (axis.cross perpendicular).normalize
    (cylinderVertices segment sides perpendicular binormal,
     bottomCapIndices sides ++ topCapIndices sides ++ sideIndicesPipe sides)

/-- `create_cylinder_for_line` (src/pipe_line.rs lines 107-224). -/
def create_cylinder_for_line (segment : LineSegment) (sides : ℕ) :
    List LinePipeVertex × List ℕ :=
  let direction := segment.end_ - segment.start
  if direction.magnitude < 1e-6 then ([], [])
  else
    let axis := direction.normalize
    let perpendicular :=
      if 0.5 < |axis.x| ∨ 0.5 < |axis.y| then (V3.mk axis.y (-axis.x) 0).normalize
      else (V3.mk 0 axis.z (-axis.y)).normalize
    let binormal := (axis.cross perpendicular).normalize
    (cylinderVerticesLine segment sides axis perpendicular binormal,
     bottomCapIndices sides ++ topCapIndices sides ++ sideIndicesLine sides)

/-- One iteration of the segment loop in `PipeModel::new` (model_pipe.rs lines
125-143).  The accumulator is `(vertices, indices, index_offset)`; the offset is
recomputed from the vertex count AFTER extending the vertex list. -/
def pipeModelStep (resolution : ℕ) (acc : List PipeVertex × List ℕ × ℕ)
    (segment : PipeSegment) : List PipeVertex × List ℕ × ℕ :=
  let segment_vertices := (create_cylinder_for_pipe segment resolution).1
  let segment_indices := (create_cylinder_for_pipe segment resolution).2
  let adjusted := segment_indices.map fun index => index + acc.2.2
  let vertices := acc.1 ++ segment_vertices
  let indices := acc.2.1 ++ adjusted
  (vertices, indices, vertices.length)

/-- Geometry computed by `PipeModel::new` (model_pipe.rs lines 114-163) before
it is uploaded into GPU buffers. -/
def pipeModelGeometry (pipe_segments : List PipeSegment) (resolution : ℕ) :
    List PipeVertex × List ℕ :=
  let r := pipe_segments.foldl (pipeModelStep resolution) ([], [], 0)
  (r.1, r.2.1)

/-- One iteration of the segment loop in `PipeLineModel::new` (pipe_line.rs lines
71-83).  Note the difference from `pipeModelStep`: the source updates
`index_offset = vertices.len()` BEFORE extending `vertices`, so the offset
stored for the next segment lags one segment behind. -/
def pipeLineModelStep (resolution : ℕ) (acc : List LinePipeVertex × List ℕ × ℕ)
    (segment : LineSegment) : List LinePipeVertex × List ℕ × ℕ :=
  let segment_vertices := (create_cylinder_for_line segment resolution).1
  let segment_indices := (create_cylinder_for_line segment resolution).2
  let adjusted := segment_indices.map fun index => index + acc.2.2
  let index_offset := acc.1.length
  (acc.1 ++ segment_vertices, acc.2.1 ++ adjusted, index_offset)

/-- Geometry computed by `PipeLineModel::new` (pipe_line.rs lines 60-103). -/
def pipeLineModelGeometry (line_segments : List LineSegment) (resolution : ℕ) :
    List LinePipeVertex × List ℕ :=
  let r := line_segments.foldl (pipeLineModelStep resolution) ([], [], 0)
  (r.1, r.2.1)

/-! ### Counting lemmas for the cylinder builders -/

theorem length_flatMap_const {α : Type} (f : ℕ → List α) (c n : ℕ)
    (h : ∀ i, (f i).length = c) : ((List.range n).flatMap f).length = c * n := by
  induction n with
  | zero => simp
  | succ n ih =>
    rw [List.range_succ, List.flatMap_append]
    simp only [List.length_append, ih, List.flatMap_cons, List.flatMap_nil,
      List.append_nil, h]
    ring

theorem length_cylinderVertices (segment : PipeSegment) (sides : ℕ) (P B : V3) :
    (cylinderVertices segment sides P B).length = 2 * sides + 2 := by
  simp [cylinderVertices]
  ring

theorem length_cylinderVerticesLine (segment : LineSegment) (sides : ℕ) (A P B : V3) :
    (cylinderVerticesLine segment sides A P B).length = 2 * sides + 2 := by
  simp [cylinderVerticesLine]
  ring

theorem length_bottomCapIndices (sides : ℕ) :
    (bottomCapIndices sides).length = 3 * sides :=
  length_flatMap_const _ 3 sides fun _ => rfl

theorem length_topCapIndices (sides : ℕ) :
    (topCapIndices sides).length = 3 * sides :=
  length_flatMap_const _ 3 sides fun _ => rfl

theorem length_sideIndicesPipe (sides : ℕ) :
    (sideIndicesPipe sides).length = 6 * sides :=
  length_flatMap_const _ 6 sides fun _ => rfl

theorem length_sideIndicesLine (sides : ℕ) :
    (sideIndicesLine sides).length = 6 * sides :=
  length_flatMap_const _ 6 sides fun _ => rfl

theorem create_cylinder_for_pipe_of_degenerate (segment : PipeSegment) (sides : ℕ)
    (h : (segment.end_ - segment.start).magnitude < 1e-6) :
    create_cylinder_for_pipe segment sides = ([], []) := by
  simp only [create_cylinder_for_pipe]
  rw [if_pos h]

theorem create_cylinder_for_line_of_degenerate (segment : LineSegment) (sides : ℕ)
    (h : (segment.end_ - segment.start).magnitude < 1e-6) :
    create_cylinder_for_line segment sides = ([], []) := by
  simp only [create_cylinder_for_line]
  rw [if_pos h]

theorem snd_create_cylinder_for_pipe (segment : PipeSegment) (sides : ℕ)
    (h : ¬ (segment.end_ - segment.start).magnitude < 1e-6) :
    (create_cylinder_for_pipe segment sides).2 =
      bottomCapIndices sides ++ topCapIndices sides ++ sideIndicesPipe sides := by
  simp only [create_cylinder_for_pipe]
  rw [if_neg h]

theorem snd_create_cylinder_for_line (segment : LineSegment) (sides : ℕ)
    (h : ¬ (segment.end_ - segment.start).magnitude < 1e-6) :
    (create_cylinder_for_line segment sides).2 =
      bottomCapIndices sides ++ topCapIndices sides ++ sideIndicesLine sides := by
  simp only [create_cylinder_for_line]
  rw [if_neg h]

theorem length_fst_create_cylinder_for_pipe (segment : PipeSegment) (sides : ℕ)
    (h : ¬ (segment.end_ - segment.start).magnitude < 1e-6) :
    (create_cylinder_for_pipe segment sides).1.length = 2 * sides + 2 := by
  simp only [create_cylinder_for_pipe]
  rw [if_neg h]
  exact length_cylinderVertices _ _ _ _

theorem length_fst_create_cylinder_for_line (segment : LineSegment) (sides : ℕ)
    (h : ¬ (segment.end_ - segment.start).magnitude < 1e-6) :
    (create_cylinder_for_line segment sides).1.length = 2 * sides + 2 := by
  simp only [create_cylinder_for_line]
  rw [if_neg h]
  exact length_cylinderVerticesLine _ _ _ _ _

theorem length_snd_create_cylinder_for_pipe (segment : PipeSegment) (sides : ℕ)
    (h : ¬ (segment.end_ - segment.start).magnitude < 1e-6) :
    (create_cylinder_for_pipe segment sides).2.length = 12 * sides := by
  rw [snd_create_cylinder_for_pipe segment sides h]
  simp [length_bottomCapIndices, length_topCapIndices, length_sideIndicesPipe]
  ring

/-- Every index pushed by `create_cylinder_for_pipe` is below `2*sides + 2`. -/
theorem indices_lt_create_cylinder_for_pipe (segment : PipeSegment) (sides : ℕ) :
    ∀ idx ∈ (create_cylinder_for_pipe segment sides).2, idx < 2 * sides + 2 := by
  intro idx hidx
  by_cases h : (segment.end_ - segment.start).magnitude < 1e-6
  · rw [create_cylinder_for_pipe_of_degenerate segment sides h] at hidx
    simp at hidx
  · rw [snd_create_cylinder_for_pipe segment sides h] at hidx
    simp only [bottomCapIndices, topCapIndices, sideIndicesPipe, List.mem_append,
      List.mem_flatMap, List.mem_range, List.mem_cons, List.not_mem_nil, or_false] at hidx
    have hmod : ∀ i : ℕ, i < sides → (i + 1) % sides < sides := by
      intro i hi
      exact Nat.mod_lt _ (by omega)
    rcases hidx with (⟨i, hi, hv⟩ | ⟨i, hi, hv⟩) | ⟨i, hi, hv⟩ <;>
      have := hmod i hi <;> omega

/-! ### Concrete segments used by witnesses and counterexamples -/

/-- Unit-length vertical segment with radius 1. -/
def segZ : PipeSegment := ⟨⟨0, 0, 0⟩, ⟨0, 0, 1⟩, ⟨1, 0, 0⟩, 1⟩

/-- Unit-length vertical segment with NEGATIVE radius. -/
def segZnegR : PipeSegment := ⟨⟨0, 0, 0⟩, ⟨0, 0, 1⟩, ⟨0, 0, 0⟩, -1⟩

/-- Zero-length (degenerate) segment. -/
def segPoint : PipeSegment := ⟨⟨1, 2, 3⟩, ⟨1, 2, 3⟩, ⟨0, 0, 0⟩, 1⟩

/-- Unit-length vertical line segment with radius 1. -/
def seglZ : LineSegment := ⟨⟨0, 0, 0⟩, ⟨0, 0, 1⟩, ⟨0, 0, 0⟩, 1⟩

/-- Zero-length (degenerate) line segment. -/
def seglPoint : LineSegment := ⟨⟨1, 2, 3⟩, ⟨1, 2, 3⟩, ⟨0, 0, 0⟩, 1⟩

theorem magnitude_e3 : (V3.mk 0 0 1).magnitude = 1 := by
  simp [V3.magnitude, V3.dot]

theorem segZ_not_degenerate : ¬ (segZ.end_ - segZ.start).magnitude < 1e-6 := by
  have hd : segZ.end_ - segZ.start = V3.mk 0 0 1 := by ext <;> simp [segZ]
  rw [hd, magnitude_e3]
  norm_num

theorem segZnegR_not_degenerate : ¬ (segZnegR.end_ - segZnegR.start).magnitude < 1e-6 := by
  have hd : segZnegR.end_ - segZnegR.start = V3.mk 0 0 1 := by ext <;> simp [segZnegR]
  rw [hd, magnitude_e3]
  norm_num

theorem seglZ_not_degenerate : ¬ (seglZ.end_ - seglZ.start).magnitude < 1e-6 := by
  have hd : seglZ.end_ - seglZ.start = V3.mk 0 0 1 := by ext <;> simp [seglZ]
  rw [hd, magnitude_e3]
  norm_num

theorem segPoint_degenerate : (segPoint.end_ - segPoint.start).magnitude < 1e-6 := by
  have hd : segPoint.end_ - segPoint.start = V3.mk 0 0 0 := by ext <;> simp [segPoint]
  have hm : (V3.mk 0 0 0).magnitude = 0 := by simp [V3.magnitude, V3.dot]
  rw [hd, hm]
  norm_num

theorem seglPoint_degenerate : (seglPoint.end_ - seglPoint.start).magnitude < 1e-6 := by
  have hd : seglPoint.end_ - seglPoint.start = V3.mk 0 0 0 := by ext <;> simp [seglPoint]
  have hm : (V3.mk 0 0 0).magnitude = 0 := by simp [V3.magnitude, V3.dot]
  rw [hd, hm]
  norm_num

/-! ### Claim C2: per-segment vertex and triangle counts -/

/-- C2: for every segment whose endpoints do not coincide (direction magnitude
at least `1e-6`) and every `sides`, `create_cylinder_for_pipe` returns exactly
`2*sides + 2` vertices and exactly `4*sides` triangles, i.e. `3*(4*sides) =
12*sides` index entries; it never produces a partial segment. -/
theorem pipe_segment_full_counts (segment : PipeSegment) (sides : ℕ)
    (h : ¬ (segment.end_ - segment.start).magnitude < 1e-6) :
    (create_cylinder_for_pipe segment sides).1.length = 2 * sides + 2 ∧
    (create_cylinder_for_pipe segment sides).2.length = 3 * (4 * sides) := by
  refine ⟨length_fst_create_cylinder_for_pipe _ _ h, ?_⟩
  rw [length_snd_create_cylinder_for_pipe _ _ h]
  ring

/-- Witness for C2 at the concrete segment `segZ` with `sides = 4`. -/
theorem pipe_segment_full_counts_witness :
    (create_cylinder_for_pipe segZ 4).1.length = 2 * 4 + 2 ∧
    (create_cylinder_for_pipe segZ 4).2.length = 3 * (4 * 4) :=
  pipe_segment_full_counts segZ 4 segZ_not_degenerate

/-! ### Claim C5: degenerate (zero-length) segments are skipped -/

/-- C5: a segment whose direction magnitude is below the `1e-6` epsilon emits
zero vertices and zero indices in both cylinder builders, and building a
single such segment returns the empty vertex and index lists. -/
theorem degenerate_segment_skipped (segment : PipeSegment) (lsegment : LineSegment)
    (sides : ℕ)
    (h : (segment.end_ - segment.start).magnitude < 1e-6)
    (hl : (lsegment.end_ - lsegment.start).magnitude < 1e-6) :
    create_cylinder_for_pipe segment sides = ([], []) ∧
    create_cylinder_for_line lsegment sides = ([], []) ∧
    pipeModelGeometry [segment] sides = ([], []) ∧
    pipeLineModelGeometry [lsegment] sides = ([], []) := by
  refine ⟨create_cylinder_for_pipe_of_degenerate _ _ h,
    create_cylinder_for_line_of_degenerate _ _ hl, ?_, ?_⟩
  · simp [pipeModelGeometry, pipeModelStep,
      create_cylinder_for_pipe_of_degenerate segment sides h]
  · simp [pipeLineModelGeometry, pipeLineModelStep,
      create_cylinder_for_line_of_degenerate lsegment sides hl]

/-- Witness for C5 at the concrete coincident-endpoint segments. -/
theorem degenerate_segment_skipped_witness :
    create_cylinder_for_pipe segPoint 12 = ([], []) ∧
    create_cylinder_for_line seglPoint 12 = ([], []) ∧
    pipeModelGeometry [segPoint] 12 = ([], []) ∧
    pipeLineModelGeometry [seglPoint] 12 = ([], []) :=
  degenerate_segment_skipped segPoint seglPoint 12 segPoint_degenerate seglPoint_degenerate

/-! ### Claim C6: zero/negative radius is NOT skipped (claim refuted) -/

/-- C6 counterexample: the claim says a segment with zero-or-negative radius
produces no geometry; but on the negative-radius, unit-length segment
`segZnegR` with `sides = 3` the builder still emits `8` vertices and `36`
index entries. -/
theorem nonpositive_radius_skip_counterexample :
    ¬ ((create_cylinder_for_pipe segZnegR 3).1.length = 0 ∧
       (create_cylinder_for_pipe segZnegR 3).2.length = 0) := by
  rw [length_fst_create_cylinder_for_pipe _ _ segZnegR_not_degenerate,
    length_snd_create_cylinder_for_pipe _ _ segZnegR_not_degenerate]
  omega

/-- C6 amended: the radius is never inspected — a segment with zero or negative
radius still emits the full `2*sides+2` vertices and `12*sides` index entries
whenever its length is at least the epsilon; only zero-length segments are
skipped. -/
theorem nonpositive_radius_not_skipped (segment : PipeSegment) (sides : ℕ)
    (_hr : segment.radius ≤ 0)
    (h : ¬ (segment.end_ - segment.start).magnitude < 1e-6) :
    (create_cylinder_for_pipe segment sides).1.length = 2 * sides + 2 ∧
    (create_cylinder_for_pipe segment sides).2.length = 12 * sides :=
  ⟨length_fst_create_cylinder_for_pipe _ _ h, length_snd_create_cylinder_for_pipe _ _ h⟩

/-- Witness for the amended C6 at the negative-radius segment `segZnegR`. -/
theorem nonpositive_radius_not_skipped_witness :
    (create_cylinder_for_pipe segZnegR 3).1.length = 2 * 3 + 2 ∧
    (create_cylinder_for_pipe segZnegR 3).2.length = 12 * 3 :=
  nonpositive_radius_not_skipped segZnegR 3 (by norm_num [segZnegR]) segZnegR_not_degenerate

/-! ### Claim C4: whole-build counts and index bounds (PipeModel::new) -/

/-- Loop invariant of the segment loop in `PipeModel::new`: starting from an
accumulator whose offset equals its vertex count and whose indices are all
in range, after folding over non-degenerate segments the vertex and index
counts grow by `2*sides+2` and `12*sides` per segment, the offset stays equal
to the vertex count, and every index stays below the vertex count. -/
theorem pipeModel_foldl_spec (sides : ℕ) (segs : List PipeSegment)
    (v : List PipeVertex) (ind : List ℕ)
    (hnd : ∀ s ∈ segs, ¬ (s.end_ - s.start).magnitude < 1e-6)
    (hind : ∀ idx ∈ ind, idx < v.length) :
    (segs.foldl (pipeModelStep sides) (v, ind, v.length)).1.length
        = v.length + segs.length * (2 * sides + 2) ∧
    (segs.foldl (pipeModelStep sides) (v, ind, v.length)).2.1.length
        = ind.length + segs.length * (12 * sides) ∧
    ∀ idx ∈ (segs.foldl (pipeModelStep sides) (v, ind, v.length)).2.1,
      idx < (segs.foldl (pipeModelStep sides) (v, ind, v.length)).1.length := by
  induction segs generalizing v ind with
  | nil => exact ⟨by simp, by simp, hind⟩
  | cons s ss ih =>
    have hs : ¬ (s.end_ - s.start).magnitude < 1e-6 := hnd s (List.mem_cons_self s ss)
    have hss : ∀ t ∈ ss, ¬ (t.end_ - t.start).magnitude < 1e-6 :=
      fun t ht => hnd t (List.mem_cons_of_mem s ht)
    have hstep : pipeModelStep sides (v, ind, v.length) s =
        (v ++ (create_cylinder_for_pipe s sides).1,
         ind ++ (create_cylinder_for_pipe s sides).2.map (fun index => index + v.length),
         (v ++ (create_cylinder_for_pipe s sides).1).length) := by
      simp [pipeModelStep]
    have hind2 : ∀ idx ∈ ind ++ (create_cylinder_for_pipe s sides).2.map
        (fun index => index + v.length),
        idx < (v ++ (create_cylinder_for_pipe s sides).1).length := by
      intro idx hidx
      rw [List.length_append, length_fst_create_cylinder_for_pipe s sides hs]
      rcases List.mem_append.mp hidx with hold | hnew
      · have := hind idx hold
        omega
      · obtain ⟨j, hj, rfl⟩ := List.mem_map.mp hnew
        have := indices_lt_create_cylinder_for_pipe s sides j hj
        omega
    have h := ih (v ++ (create_cylinder_for_pipe s sides).1)
      (ind ++ (create_cylinder_for_pipe s sides).2.map (fun index => index + v.length))
      hss hind2
    rw [List.foldl_cons, hstep]
    refine ⟨?_, ?_, h.2.2⟩
    · rw [h.1, List.length_append, length_fst_create_cylinder_for_pipe s sides hs,
        List.length_cons]
      ring
    · rw [h.2.1, List.length_append, List.length_map,
        length_snd_create_cylinder_for_pipe s sides hs, List.length_cons]
      ring

/-- Whole-build law for `PipeModel::new` on non-degenerate segments. -/
theorem pipeModelGeometry_spec (segs : List PipeSegment) (sides : ℕ)
    (hnd : ∀ s ∈ segs, ¬ (s.end_ - s.start).magnitude < 1e-6) :
    (pipeModelGeometry segs sides).1.length = segs.length * (2 * sides + 2) ∧
    (pipeModelGeometry segs sides).2.length = segs.length * (12 * sides) ∧
    ∀ idx ∈ (pipeModelGeometry segs sides).2,
      idx < (pipeModelGeometry segs sides).1.length := by
  have h := pipeModel_foldl_spec sides segs [] [] hnd (by simp)
  simp only [List.length_nil, Nat.zero_add] at h
  simpa only [pipeModelGeometry] using h

/-- C4 counterexample: the claim announces `n*4*sides` index ENTRIES, but on
one non-degenerate segment with `sides = 3` the build emits `36 = 12*3` index
entries, not `1*(4*3) = 12` (the `4*sides` figure counts triangles, and each
triangle contributes three entries). -/
theorem pipe_build_entry_count_counterexample :
    ¬ ((pipeModelGeometry [segZ] 3).2.length = 1 * (4 * 3)) := by
  have h := (pipeModelGeometry_spec [segZ] 3 (by
    intro s hs
    rw [List.mem_singleton.mp hs]
    exact segZ_not_degenerate)).2.1
  rw [h]
  omega

/-- C4 amended: on `n` non-degenerate segments the build returns exactly
`n*(2*sides+2)` vertices and `n*4*sides` triangles — `n*12*sides` index
ENTRIES (the claimed `n*4*sides` is the triangle count, not the entry count) —
and every emitted index is strictly below the total vertex count. -/
theorem pipe_build_counts (segs : List PipeSegment) (sides : ℕ)
    (hnd : ∀ s ∈ segs, ¬ (s.end_ - s.start).magnitude < 1e-6) :
    (pipeModelGeometry segs sides).1.length = segs.length * (2 * sides + 2) ∧
    (pipeModelGeometry segs sides).2.length = segs.length * (3 * (4 * sides)) ∧
    ∀ idx ∈ (pipeModelGeometry segs sides).2,
      idx < (pipeModelGeometry segs sides).1.length := by
  have h := pipeModelGeometry_spec segs sides hnd
  refine ⟨h.1, ?_, h.2.2⟩
  rw [h.2.1]
  ring

/-- Witness for the amended C4 on two concrete segments with `sides = 3`. -/
theorem pipe_build_counts_witness :
    (pipeModelGeometry [segZ, segZnegR] 3).1.length = 2 * (2 * 3 + 2) ∧
    (pipeModelGeometry [segZ, segZnegR] 3).2.length = 2 * (3 * (4 * 3)) ∧
    ∀ idx ∈ (pipeModelGeometry [segZ, segZnegR] 3).2,
      idx < (pipeModelGeometry [segZ, segZnegR] 3).1.length := by
  have h := pipe_build_counts [segZ, segZnegR] 3 (by
    intro s hs
    rcases List.mem_cons.mp hs with rfl | hs
    · exact segZ_not_degenerate
    · rw [List.mem_singleton.mp hs]
      exact segZnegR_not_degenerate)
  simpa using h

/-! ### Claim C3: index offsetting when concatenating segment meshes -/

/-- C3 exhibit: on two non-degenerate segments with `sides = 3` each segment
owns a block of `2*3+2 = 8` vertices, so every index emitted for the second
segment must lie in `[8, 16)`.  `PipeModel::new` (model_pipe.rs) does offset
correctly: the second segment's first index entry (position 36) is `8`.
`PipeLineModel::new` (pipe_line.rs) updates `index_offset = vertices.len()`
BEFORE extending `vertices`, so the second segment's indices are offset by `0`
and its first index entry is `0` — it points into the FIRST segment's block. -/
theorem pipe_line_offset_lags :
    (pipeLineModelGeometry [seglZ, seglZ] 3).1.length = 16 ∧
    (pipeLineModelGeometry [seglZ, seglZ] 3).2.getD 36 0 = 0 ∧
    (pipeModelGeometry [segZ, segZ] 3).2.getD 36 0 = 8 := by
  have hL := snd_create_cylinder_for_line seglZ 3 seglZ_not_degenerate
  have hLv := length_fst_create_cylinder_for_line seglZ 3 seglZ_not_degenerate
  have hP := snd_create_cylinder_for_pipe segZ 3 segZ_not_degenerate
  have hPv := length_fst_create_cylinder_for_pipe segZ 3 segZ_not_degenerate
  refine ⟨?_, ?_, ?_⟩
  · simp only [pipeLineModelGeometry, List.foldl_cons, List.foldl_nil, pipeLineModelStep,
      List.length_append, List.length_nil, hLv]
  · simp only [pipeLineModelGeometry, List.foldl_cons, List.foldl_nil, pipeLineModelStep,
      List.length_nil, hL]
    decide
  · simp only [pipeModelGeometry, List.foldl_cons, List.foldl_nil, pipeModelStep,
      List.length_append, List.length_nil, hP, hPv]
    decide

/-! ## Orbit camera (src/camera.rs) -/

/-- Camera zoom bounds (camera.rs lines 16-17). -/
def MIN_ZOOM_DISTANCE : ℝ := 0.5

def MAX_ZOOM_DISTANCE : ℝ := 100.0

/-- cgmath `Quaternion::from_axis_angle` (half-angle construction,
`Quaternion::from_sv(cos(angle * 0.5), axis * sin(angle * 0.5))`). -/
def from_axis_angle (axis : V3) (angle : ℝ) : Quaternion ℝ :=
  ⟨Real.cos (angle * 0.5), Real.sin (angle * 0.5) * axis.x,
   Real.sin (angle * 0.5) * axis.y, Real.sin (angle * 0.5) * axis.z⟩

/-- cgmath quaternion magnitude: `sqrt(dot(self, self))`, and the quaternion
self-dot is exactly `Quaternion.normSq`. -/
def quatMagnitude (q : Quaternion ℝ) : ℝ := Real.sqrt (Quaternion.normSq q)

/-- cgmath `InnerSpace::normalize` for quaternions: `self * (1 / magnitude)`. -/
def quatNormalize (q : Quaternion ℝ) : Quaternion ℝ := (1 / quatMagnitude q) • q

/-- cgmath `Quaternion * Vector3` (the implementation of `rotate_vector`):
`tmp = self.v.cross(vec) + vec * self.s; result = self.v.cross(tmp) * 2 + vec`. -/
def rotate_vector (q : Quaternion ℝ) (v : V3) : V3 :=
  let qv : V3 := ⟨q.imI, q.imJ, q.imK⟩
  let tmp := qv.cross v + q.re • v
  (2 : ℝ) • qv.cross tmp + v

/-- Rust `f32::clamp(self, lo, hi)`. -/
def fclamp (x lo hi : ℝ) : ℝ := if x < lo then lo else if hi < x then hi else x

/-- `Camera` from camera.rs (the `Matrix3` reference frame is kept as its three
column vectors `(right, up, forward)`). -/
structure Camera where
  position : V3
  target : V3
  up : V3
  distance : ℝ
  orientation : Quaternion ℝ
  world_up : V3
  turntable_mode : Bool
  reference_frame : V3 × V3 × V3
  last_right : V3
  initial_position : V3
  initial_target : V3
  initial_orientation : Quaternion ℝ
  initial_distance : ℝ

/-- `Camera::update_position` (camera.rs lines 101-159). -/
def update_position (cam : Camera) : Camera :=
  if cam.turntable_mode then
    let initial_offset : V3 := ⟨0, -cam.distance, 0⟩
    let final_offset := rotate_vector cam.orientation initial_offset
    let position := cam.target + final_offset
    let forward := -(rotate_vector cam.orientation ⟨0, 1, 0⟩)
    let alignment := |V3.dot forward cam.world_up|
    let right :=
      if 0.98 < alignment then cam.last_right
      else
        let computed_right := (forward.cross cam.world_up).normalize
        if computed_right.dot cam.last_right < 0 then -computed_right else computed_right
    let up := (right.cross forward).normalize
    { cam with position := position, last_right := right,
               reference_frame := (right, up, forward), up := up }
  else
    let initial_offset : V3 := ⟨0, 0, -cam.distance⟩
    let final_offset := rotate_vector cam.orientation initial_offset
    { cam with position := cam.target + final_offset,
               up := rotate_vector cam.orientation ⟨0, 1, 0⟩ }

/-- `Camera::pan` (camera.rs lines 190-212). -/
def pan (cam : Camera) (right_amount up_amount : ℝ) : Camera :=
  let forward := (cam.target - cam.position).normalize
  let right := (forward.cross cam.world_up).normalize
  let up := (right.cross forward).normalize
  let pan_speed := cam.distance * 0.01
  let pan_right := (right_amount * pan_speed) • right
  let pan_up := (up_amount * pan_speed) • up
  { cam with position := cam.position + pan_right + pan_up,
             target := cam.target + pan_right + pan_up }

/-- `Camera::reset_to_initial` (camera.rs lines 163-181). -/
def reset_to_initial (cam : Camera) : Camera :=
  let cam1 : Camera :=
    { cam with
      position := cam.initial_position
      target := cam.initial_target
      orientation := cam.initial_orientation
      distance := cam.initial_distance }
  let forward := -(rotate_vector cam1.orientation ⟨0, 1, 0⟩)
  let right :=
    if 0.99 < |forward.dot cam1.world_up| then (⟨1, 0, 0⟩ : V3)
    else (forward.cross cam1.world_up).normalize
  update_position { cam1 with last_right := right }

/-- `CameraController` from camera.rs. -/
structure CameraController where
  amount_left : ℝ
  amount_right : ℝ
  amount_up : ℝ
  amount_down : ℝ
  mouse_pan_x : ℝ
  mouse_pan_y : ℝ
  is_panning : Bool
  mouse_delta_x : ℝ
  mouse_delta_y : ℝ
  is_orbiting : Bool
  alt_pressed : Bool
  scroll : ℝ
  speed : ℝ
  sensitivity : ℝ
  orbit_speed : ℝ
  zoom_speed : ℝ
  orbit_invert_y : Bool
  max_rotation_per_frame : ℝ
  reset_camera_pressed : Bool

/-- `CameraController::new` (camera.rs lines 277-299). -/
def CameraController.new (speed sensitivity : ℝ) : CameraController :=
  ⟨0, 0, 0, 0, 0, 0, false, 0, 0, false, false, 0,
   speed, sensitivity, 1.5, 0.05, false, 0.1, false⟩

/-- Keyboard-pan block of `update_camera` (camera.rs lines 397-402). -/
def keyboard_pan_step (ctrl : CameraController) (camera : Camera) (dt : ℝ) : Camera :=
  let key_pan_right := (ctrl.amount_right - ctrl.amount_left) * ctrl.speed * dt
  let key_pan_up := (ctrl.amount_up - ctrl.amount_down) * ctrl.speed * dt
  if key_pan_right ≠ 0 ∨ key_pan_up ≠ 0 then pan camera key_pan_right key_pan_up
  else camera

/-- Mouse-pan block of `update_camera` (camera.rs lines 404-414). -/
def mouse_pan_step (ctrl : CameraController) (camera : Camera) : Camera :=
  if ctrl.is_panning ∧ (ctrl.mouse_pan_x ≠ 0 ∨ ctrl.mouse_pan_y ≠ 0) then
    let mouse_pan_speed := ctrl.speed * ctrl.sensitivity * 0.1
    pan camera (-ctrl.mouse_pan_x * mouse_pan_speed) (ctrl.mouse_pan_y * mouse_pan_speed)
  else camera

/-- Orbit block of `update_camera` (camera.rs lines 416-463). -/
def orbit_step (ctrl : CameraController) (camera : Camera) (dt : ℝ) : Camera :=
  if ctrl.is_orbiting ∧ (ctrl.mouse_delta_x ≠ 0 ∨ ctrl.mouse_delta_y ≠ 0) then
    let orbit_multiplier := ctrl.orbit_speed * ctrl.sensitivity * dt
    let yaw_delta := fclamp (ctrl.mouse_delta_x * orbit_multiplier)
      (-ctrl.max_rotation_per_frame) ctrl.max_rotation_per_frame
    let pitch_delta :=
      if ctrl.orbit_invert_y then ctrl.mouse_delta_y * orbit_multiplier
      else -ctrl.mouse_delta_y * orbit_multiplier
    let pitch_delta := fclamp pitch_delta
      (-ctrl.max_rotation_per_frame) ctrl.max_rotation_per_frame
    let yaw_rotation := from_axis_angle camera.world_up yaw_delta
    let right := camera.last_right
    let pitch_rotation := from_axis_angle right.normalize pitch_delta
    let orientation := yaw_rotation * pitch_rotation * camera.orientation
    let orientation := quatNormalize orientation
    update_position { camera with orientation := orientation }
  else camera

/-- Distance update and reposition of the zoom branch (camera.rs lines 466-476). -/
def zoom_apply (camera : Camera) (scroll zoom_speed : ℝ) : Camera :=
  let d1 := camera.distance * (1 + scroll * zoom_speed)
  let d2 := min (max d1 MIN_ZOOM_DISTANCE) MAX_ZOOM_DISTANCE
  update_position { camera with distance := d2 }

/-- Zoom block of `update_camera` (camera.rs lines 465-476); clears `scroll`. -/
def zoom_step (ctrl : CameraController) (camera : Camera) : CameraController × Camera :=
  if ctrl.scroll ≠ 0 then
    ({ ctrl with scroll := 0 }, zoom_apply camera ctrl.scroll ctrl.zoom_speed)
  else (ctrl, camera)

/-- Reset block of `update_camera` (camera.rs lines 478-482). -/
def reset_step (ctrl : CameraController) (camera : Camera) : CameraController × Camera :=
  if ctrl.reset_camera_pressed then
    ({ ctrl with reset_camera_pressed := false }, reset_to_initial camera)
  else (ctrl, camera)

/-- `CameraController::update_camera` (camera.rs lines 394-483), as the
sequence of its five blocks. -/
def update_camera (ctrl : CameraController) (camera : Camera) (dt : ℝ) :
    CameraController × Camera :=
  let camera1 := keyboard_pan_step ctrl camera dt
  let camera2 := mouse_pan_step ctrl camera1
  let camera3 := orbit_step ctrl camera2 dt
  let pair := zoom_step ctrl camera3
  reset_step pair.1 pair.2

/-- Repeated application of the zoom branch body: the camera after each step of
a sequence of zoom operations. -/
def zoomSeq (camera : Camera) (zoom_speed : ℝ) : List ℝ → List Camera
  | [] => []
  | d :: ds =>
    let c := zoom_apply camera d zoom_speed
    c :: zoomSeq c zoom_speed ds

/-- Forward vector recomputed by `update_position` in turntable mode
(camera.rs line 116). -/
def cameraForward (cam : Camera) : V3 := -(rotate_vector cam.orientation ⟨0, 1, 0⟩)

/-- Candidate right vector of `update_position` (camera.rs line 129). -/
def candidateRight (cam : Camera) : V3 :=
  ((cameraForward cam).cross cam.world_up).normalize

/-! ### Field-preservation lemmas for the camera operations -/

theorem update_position_distance (cam : Camera) :
    (update_position cam).distance = cam.distance := by
  unfold update_position; split <;> rfl

theorem update_position_orientation (cam : Camera) :
    (update_position cam).orientation = cam.orientation := by
  unfold update_position; split <;> rfl

theorem update_position_target (cam : Camera) :
    (update_position cam).target = cam.target := by
  unfold update_position; split <;> rfl

theorem pan_orientation (cam : Camera) (r u : ℝ) : (pan cam r u).orientation = cam.orientation := rfl

theorem pan_last_right (cam : Camera) (r u : ℝ) : (pan cam r u).last_right = cam.last_right := rfl

theorem pan_world_up (cam : Camera) (r u : ℝ) : (pan cam r u).world_up = cam.world_up := rfl

theorem pan_distance (cam : Camera) (r u : ℝ) : (pan cam r u).distance = cam.distance := rfl

theorem keyboard_pan_step_fields (ctrl : CameraController) (cam : Camera) (dt : ℝ) :
    (keyboard_pan_step ctrl cam dt).orientation = cam.orientation ∧
    (keyboard_pan_step ctrl cam dt).last_right = cam.last_right ∧
    (keyboard_pan_step ctrl cam dt).world_up = cam.world_up ∧
    (keyboard_pan_step ctrl cam dt).distance = cam.distance := by
  simp only [keyboard_pan_step]
  split <;> exact ⟨rfl, rfl, rfl, rfl⟩

theorem mouse_pan_step_fields (ctrl : CameraController) (cam : Camera) :
    (mouse_pan_step ctrl cam).orientation = cam.orientation ∧
    (mouse_pan_step ctrl cam).last_right = cam.last_right ∧
    (mouse_pan_step ctrl cam).world_up = cam.world_up ∧
    (mouse_pan_step ctrl cam).distance = cam.distance := by
  unfold mouse_pan_step
  split <;> exact ⟨rfl, rfl, rfl, rfl⟩

theorem orbit_step_distance (ctrl : CameraController) (cam : Camera) (dt : ℝ) :
    (orbit_step ctrl cam dt).distance = cam.distance := by
  unfold orbit_step
  split
  · rw [update_position_distance]
  · rfl

theorem zoom_apply_orientation (cam : Camera) (s zs : ℝ) :
    (zoom_apply cam s zs).orientation = cam.orientation := by
  unfold zoom_apply
  rw [update_position_orientation]

theorem zoom_apply_distance (cam : Camera) (s zs : ℝ) :
    (zoom_apply cam s zs).distance =
      min (max (cam.distance * (1 + s * zs)) MIN_ZOOM_DISTANCE) MAX_ZOOM_DISTANCE := by
  unfold zoom_apply
  rw [update_position_distance]

theorem zoom_step_snd_orientation (ctrl : CameraController) (cam : Camera) :
    (zoom_step ctrl cam).2.orientation = cam.orientation := by
  unfold zoom_step
  split
  · exact zoom_apply_orientation _ _ _
  · rfl

theorem zoom_step_fst_reset (ctrl : CameraController) (cam : Camera) :
    (zoom_step ctrl cam).1.reset_camera_pressed = ctrl.reset_camera_pressed := by
  unfold zoom_step
  split <;> rfl

theorem reset_step_of_not_pressed (ctrl : CameraController) (cam : Camera)
    (h : ctrl.reset_camera_pressed = false) : reset_step ctrl cam = (ctrl, cam) := by
  unfold reset_step
  rw [if_neg]
  rw [h]
  simp

/-! ### Quaternion norm lemmas -/

theorem quatMagnitude_smul (r : ℝ) (q : Quaternion ℝ) :
    quatMagnitude (r • q) = |r| * quatMagnitude q := by
  unfold quatMagnitude
  rw [Quaternion.normSq_smul, Real.sqrt_mul (sq_nonneg r), Real.sqrt_sq_eq_abs]

theorem quatMagnitude_mul (a b : Quaternion ℝ) :
    quatMagnitude (a * b) = quatMagnitude a * quatMagnitude b := by
  unfold quatMagnitude
  rw [map_mul, Real.sqrt_mul Quaternion.normSq_nonneg]

theorem quatMagnitude_pos (q : Quaternion ℝ) (h : q ≠ 0) : 0 < quatMagnitude q := by
  unfold quatMagnitude
  exact Real.sqrt_pos.mpr (lt_of_le_of_ne Quaternion.normSq_nonneg
    (Ne.symm (Quaternion.normSq_ne_zero.mpr h)))

theorem quatNormalize_magnitude (q : Quaternion ℝ) (h : q ≠ 0) :
    quatMagnitude (quatNormalize q) = 1 := by
  have hm : 0 < quatMagnitude q := quatMagnitude_pos q h
  rw [quatNormalize, quatMagnitude_smul, abs_of_pos (by positivity)]
  field_simp

theorem ne_zero_of_quatMagnitude_eq_one (q : Quaternion ℝ) (h : quatMagnitude q = 1) :
    q ≠ 0 := by
  intro h0
  subst h0
  rw [quatMagnitude, map_zero, Real.sqrt_zero] at h
  norm_num at h

theorem from_axis_angle_magnitude (axis : V3) (θ : ℝ) (h : V3.dot axis axis = 1) :
    quatMagnitude (from_axis_angle axis θ) = 1 := by
  have hsq : Quaternion.normSq (from_axis_angle axis θ) = 1 := by
    rw [Quaternion.normSq_def']
    show Real.cos (θ * 0.5) ^ 2 + (Real.sin (θ * 0.5) * axis.x) ^ 2 +
      (Real.sin (θ * 0.5) * axis.y) ^ 2 + (Real.sin (θ * 0.5) * axis.z) ^ 2 = 1
    have hp := Real.sin_sq_add_cos_sq (θ * 0.5)
    have hd : axis.x * axis.x + axis.y * axis.y + axis.z * axis.z = 1 := h
    linear_combination Real.sin (θ * 0.5) ^ 2 * hd + hp
  rw [quatMagnitude, hsq, Real.sqrt_one]

theorem V3.dot_self_pos (v : V3) (h : v ≠ 0) : 0 < V3.dot v v := by
  rcases lt_or_eq_of_le (V3.dot_self_nonneg v) with hlt | heq
  · exact hlt
  · exfalso
    apply h
    have h0 : v.x * v.x + v.y * v.y + v.z * v.z = 0 := heq.symm
    ext <;> simp <;> nlinarith [sq_nonneg v.x, sq_nonneg v.y, sq_nonneg v.z]

theorem abs_fclamp_le (x m : ℝ) (hm : 0 ≤ m) : |fclamp x (-m) m| ≤ m := by
  rcases lt_or_le x (-m) with h1 | h1
  · rw [fclamp, if_pos h1, abs_neg, abs_of_nonneg hm]
  · rcases lt_or_le m x with h2 | h2
    · rw [fclamp, if_neg (not_lt.mpr h1), if_pos h2, abs_of_nonneg hm]
    · rw [fclamp, if_neg (not_lt.mpr h1), if_neg (not_lt.mpr h2)]
      exact abs_le.mpr ⟨by linarith, h2⟩

/-- Rotation by a unit quaternion preserves the squared length of a vector
(the core algebraic fact behind the cgmath sandwich-product formula). -/
theorem rotate_vector_dot_self (q : Quaternion ℝ) (v : V3)
    (h : Quaternion.normSq q = 1) :
    V3.dot (rotate_vector q v) (rotate_vector q v) = V3.dot v v := by
  rw [Quaternion.normSq_def'] at h
  simp only [rotate_vector, V3.cross, V3.dot, V3.add_x, V3.add_y, V3.add_z,
    V3.smul_x, V3.smul_y, V3.smul_z, V3.mk_x, V3.mk_y, V3.mk_z]
  linear_combination (4 * ((q.imJ * v.z - q.imK * v.y) ^ 2 +
    (q.imK * v.x - q.imI * v.z) ^ 2 + (q.imI * v.y - q.imJ * v.x) ^ 2)) * h

/-! ### Reductions of update_position in turntable mode -/

theorem update_position_position_eq (cam : Camera) (ht : cam.turntable_mode = true) :
    (update_position cam).position =
      cam.target + rotate_vector cam.orientation ⟨0, -cam.distance, 0⟩ := by
  simp only [update_position]
  rw [if_pos ht]

theorem update_position_last_right_eq (cam : Camera) (ht : cam.turntable_mode = true) :
    (update_position cam).last_right =
      if 0.98 < |V3.dot (cameraForward cam) cam.world_up| then cam.last_right
      else if V3.dot (candidateRight cam) cam.last_right < 0 then -candidateRight cam
      else candidateRight cam := by
  simp only [update_position, cameraForward, candidateRight]
  rw [if_pos ht]

theorem update_position_up_eq (cam : Camera) (ht : cam.turntable_mode = true) :
    (update_position cam).up =
      (V3.cross
        (if 0.98 < |V3.dot (cameraForward cam) cam.world_up| then cam.last_right
         else if V3.dot (candidateRight cam) cam.last_right < 0 then -candidateRight cam
         else candidateRight cam)
        (cameraForward cam)).normalize := by
  simp only [update_position, cameraForward, candidateRight]
  rw [if_pos ht]

/-- Concrete camera used by the camera-claim witnesses: identity orientation,
distance 2, world up `+Z`, cached right `+X`, turntable mode. -/
def camW : Camera :=
  { position := ⟨0, -2, 0⟩
    target := ⟨0, 0, 0⟩
    up := ⟨0, 0, 1⟩
    distance := 2
    orientation := 1
    world_up := ⟨0, 0, 1⟩
    turntable_mode := true
    reference_frame := (⟨1, 0, 0⟩, ⟨0, 0, 1⟩, ⟨0, -1, 0⟩)
    last_right := ⟨1, 0, 0⟩
    initial_position := ⟨0, -2, 0⟩
    initial_target := ⟨0, 0, 0⟩
    initial_orientation := 1
    initial_distance := 2 }

/-! ### Claim C9: pole handling and sign-flip prevention for the right vector -/

/-- C9: in turntable mode `update_position` reuses the cached `last_right`
unchanged when `|forward · world_up| > 0.98`; otherwise it accepts the
normalized `forward × world_up`, negated when its dot product with the previous
`last_right` is negative; in all cases the accepted right vector (stored as the
new `last_right`) has non-negative dot product with the previous `last_right`. -/
theorem right_vector_continuity (cam : Camera) (ht : cam.turntable_mode = true) :
    (0.98 < |V3.dot (cameraForward cam) cam.world_up| →
        (update_position cam).last_right = cam.last_right) ∧
    (¬ 0.98 < |V3.dot (cameraForward cam) cam.world_up| →
        (update_position cam).last_right =
          if V3.dot (candidateRight cam) cam.last_right < 0 then -candidateRight cam
          else candidateRight cam) ∧
    0 ≤ V3.dot (update_position cam).last_right cam.last_right := by
  rw [update_position_last_right_eq cam ht]
  refine ⟨fun hpole => by rw [if_pos hpole], fun hnp => by rw [if_neg hnp], ?_⟩
  by_cases hpole : 0.98 < |V3.dot (cameraForward cam) cam.world_up|
  · rw [if_pos hpole]
    exact V3.dot_self_nonneg cam.last_right
  · rw [if_neg hpole]
    by_cases hflip : V3.dot (candidateRight cam) cam.last_right < 0
    · rw [if_pos hflip, V3.dot_neg_left]
      linarith
    · rw [if_neg hflip]
      exact not_lt.mp hflip

/-- Witness for C9 at the concrete camera `camW`. -/
theorem right_vector_continuity_witness :
    (0.98 < |V3.dot (cameraForward camW) camW.world_up| →
        (update_position camW).last_right = camW.last_right) ∧
    (¬ 0.98 < |V3.dot (cameraForward camW) camW.world_up| →
        (update_position camW).last_right =
          if V3.dot (candidateRight camW) camW.last_right < 0 then -candidateRight camW
          else candidateRight camW) ∧
    0 ≤ V3.dot (update_position camW).last_right camW.last_right :=
  right_vector_continuity camW rfl

/-! ### Claim C10: the turntable basis stays well-formed -/

/-- C10: given a unit orientation quaternion, a non-negative distance, a unit
cached right vector orthogonal to a unit world up, `update_position` in
turntable mode places the eye exactly `distance` away from the target, and
stores a unit-length up vector orthogonal to the forward direction — in the
near-pole branch (which reuses the cached `last_right`) as well as in the
normal branch. -/
theorem update_position_turntable_wellformed (cam : Camera)
    (ht : cam.turntable_mode = true)
    (hq : Quaternion.normSq cam.orientation = 1)
    (hd : 0 ≤ cam.distance)
    (hlr : V3.dot cam.last_right cam.last_right = 1)
    (hlrw : V3.dot cam.last_right cam.world_up = 0)
    (hw : V3.dot cam.world_up cam.world_up = 1) :
    V3.magnitude ((update_position cam).position - cam.target) = cam.distance ∧
    V3.magnitude ((update_position cam).up) = 1 ∧
    V3.dot ((update_position cam).up) (cameraForward cam) = 0 := by
  have hff : V3.dot (cameraForward cam) (cameraForward cam) = 1 := by
    rw [cameraForward, V3.dot_neg_left, V3.dot_neg_right, neg_neg,
      rotate_vector_dot_self cam.orientation _ hq]
    simp [V3.dot]
  have hkey : 0 < V3.dot
      (V3.cross
        (if 0.98 < |V3.dot (cameraForward cam) cam.world_up| then cam.last_right
         else if V3.dot (candidateRight cam) cam.last_right < 0 then -candidateRight cam
         else candidateRight cam)
        (cameraForward cam))
      (V3.cross
        (if 0.98 < |V3.dot (cameraForward cam) cam.world_up| then cam.last_right
         else if V3.dot (candidateRight cam) cam.last_right < 0 then -candidateRight cam
         else candidateRight cam)
        (cameraForward cam)) := by
    by_cases hpole : 0.98 < |V3.dot (cameraForward cam) cam.world_up|
    · rw [if_pos hpole, V3.lagrange_identity, hlr, hff]
      have hb : V3.dot cam.last_right (cameraForward cam) ^ 2 ≤
          1 - V3.dot (cameraForward cam) cam.world_up ^ 2 := by
        have hsplit : V3.dot cam.last_right (cameraForward cam)
            = V3.dot cam.last_right
                (cameraForward cam - V3.dot (cameraForward cam) cam.world_up • cam.world_up) := by
          rw [V3.dot_sub_right, V3.dot_smul_right, hlrw]
          ring
        have hfh : V3.dot
            (cameraForward cam - V3.dot (cameraForward cam) cam.world_up • cam.world_up)
            (cameraForward cam - V3.dot (cameraForward cam) cam.world_up • cam.world_up)
            = 1 - V3.dot (cameraForward cam) cam.world_up ^ 2 := by
          simp only [V3.dot_sub_left, V3.dot_sub_right, V3.dot_smul_left, V3.dot_smul_right]
          rw [hff, hw, V3.dot_comm cam.world_up (cameraForward cam)]
          ring
        have hcs := V3.dot_sq_le cam.last_right
          (cameraForward cam - V3.dot (cameraForward cam) cam.world_up • cam.world_up)
        rw [hfh, hlr] at hcs
        rw [hsplit]
        linarith
      have ha2 : (0.9604 : ℝ) < V3.dot (cameraForward cam) cam.world_up ^ 2 := by
        nlinarith [sq_abs (V3.dot (cameraForward cam) cam.world_up),
          abs_nonneg (V3.dot (cameraForward cam) cam.world_up), hpole]
      nlinarith [hb, ha2]
    · rw [if_neg hpole]
      push_neg at hpole
      have hcw : 0 < V3.dot (V3.cross (cameraForward cam) cam.world_up)
          (V3.cross (cameraForward cam) cam.world_up) := by
        rw [V3.lagrange_identity, hff, hw]
        nlinarith [sq_abs (V3.dot (cameraForward cam) cam.world_up),
          abs_nonneg (V3.dot (cameraForward cam) cam.world_up), hpole]
      have hcand1 : V3.dot (candidateRight cam) (candidateRight cam) = 1 := by
        rw [candidateRight]
        exact V3.dot_normalize_self _ hcw
      have hcand2 : V3.dot (candidateRight cam) (cameraForward cam) = 0 := by
        rw [candidateRight, V3.dot_normalize_left, V3.cross_dot_left]
        ring
      by_cases hflip : V3.dot (candidateRight cam) cam.last_right < 0
      · rw [if_pos hflip, V3.cross_neg_left, V3.dot_neg_left, V3.dot_neg_right, neg_neg,
          V3.lagrange_identity, hcand1, hff, hcand2]
        norm_num
      · rw [if_neg hflip, V3.lagrange_identity, hcand1, hff, hcand2]
        norm_num
  refine ⟨?_, ?_, ?_⟩
  · rw [update_position_position_eq cam ht]
    have hsub : cam.target + rotate_vector cam.orientation ⟨0, -cam.distance, 0⟩ - cam.target
        = rotate_vector cam.orientation ⟨0, -cam.distance, 0⟩ := by
      ext <;> simp
    have hdd : V3.dot (V3.mk 0 (-cam.distance) 0) (V3.mk 0 (-cam.distance) 0)
        = cam.distance ^ 2 := by
      simp [V3.dot]
      ring
    rw [hsub, V3.magnitude, rotate_vector_dot_self cam.orientation _ hq, hdd,
      Real.sqrt_sq hd]
  · rw [update_position_up_eq cam ht]
    exact V3.magnitude_normalize _ hkey
  · rw [update_position_up_eq cam ht, V3.dot_normalize_left, V3.cross_dot_right]
    ring

/-- Witness for C10 at the concrete camera `camW`. -/
theorem update_position_turntable_wellformed_witness :
    V3.magnitude ((update_position camW).position - camW.target) = camW.distance ∧
    V3.magnitude ((update_position camW).up) = 1 ∧
    V3.dot ((update_position camW).up) (cameraForward camW) = 0 :=
  update_position_turntable_wellformed camW rfl (by simp [camW])
    (by norm_num [camW]) (by norm_num [camW, V3.dot])
    (by norm_num [camW, V3.dot]) (by norm_num [camW, V3.dot])

/-! ### Claim C7: orbit rotations are clamped and the orientation stays unit -/

/-- C7: while orbiting with a nonzero mouse delta (and no pending camera
reset), `update_camera` composes a yaw rotation about `world_up` with a pitch
rotation about the CACHED `last_right` vector (not a freshly derived right
vector), each through an angle of magnitude at most
`max_rotation_per_frame = 0.1`; the new orientation is the normalization of
`yaw_rotation * pitch_rotation * old_orientation` and consequently has unit
magnitude. -/
theorem orbit_clamped_normalized (ctrl : CameraController) (camera : Camera) (dt : ℝ)
    (h1 : ctrl.is_orbiting = true)
    (h2 : ctrl.mouse_delta_x ≠ 0 ∨ ctrl.mouse_delta_y ≠ 0)
    (h3 : ctrl.reset_camera_pressed = false)
    (h4 : ctrl.max_rotation_per_frame = 0.1)
    (h5 : camera.orientation ≠ 0)
    (h6 : camera.last_right ≠ 0)
    (h7 : V3.dot camera.world_up camera.world_up = 1) :
    ∃ yaw_delta pitch_delta : ℝ,
      |yaw_delta| ≤ 0.1 ∧ |pitch_delta| ≤ 0.1 ∧
      (update_camera ctrl camera dt).2.orientation =
        quatNormalize (from_axis_angle camera.world_up yaw_delta *
          from_axis_angle camera.last_right.normalize pitch_delta *
          camera.orientation) ∧
      quatMagnitude ((update_camera ctrl camera dt).2.orientation) = 1 := by
  obtain ⟨k1, k2, k3, _⟩ := keyboard_pan_step_fields ctrl camera dt
  obtain ⟨m1, m2, m3, _⟩ := mouse_pan_step_fields ctrl (keyboard_pan_step ctrl camera dt)
  have horbit : (orbit_step ctrl (mouse_pan_step ctrl (keyboard_pan_step ctrl camera dt)) dt).orientation =
      quatNormalize (from_axis_angle camera.world_up
          (fclamp (ctrl.mouse_delta_x * (ctrl.orbit_speed * ctrl.sensitivity * dt))
            (-ctrl.max_rotation_per_frame) ctrl.max_rotation_per_frame) *
        from_axis_angle camera.last_right.normalize
          (fclamp (if ctrl.orbit_invert_y
              then ctrl.mouse_delta_y * (ctrl.orbit_speed * ctrl.sensitivity * dt)
              else -ctrl.mouse_delta_y * (ctrl.orbit_speed * ctrl.sensitivity * dt))
            (-ctrl.max_rotation_per_frame) ctrl.max_rotation_per_frame) *
        camera.orientation) := by
    simp only [orbit_step]
    rw [if_pos ⟨h1, h2⟩, update_position_orientation]
    rw [m1, k1, m2, k2, m3, k3]
  have hup : (update_camera ctrl camera dt).2.orientation =
      (orbit_step ctrl (mouse_pan_step ctrl (keyboard_pan_step ctrl camera dt)) dt).orientation := by
    have hreset : (zoom_step ctrl
        (orbit_step ctrl (mouse_pan_step ctrl (keyboard_pan_step ctrl camera dt)) dt)).1.reset_camera_pressed
        = false := by
      rw [zoom_step_fst_reset]
      exact h3
    simp only [update_camera]
    rw [reset_step_of_not_pressed _ _ hreset]
    exact zoom_step_snd_orientation _ _
  rw [hup, horbit, h4]
  refine ⟨_, _, abs_fclamp_le _ _ (by norm_num), abs_fclamp_le _ _ (by norm_num), rfl, ?_⟩
  have hyq : quatMagnitude (from_axis_angle camera.world_up
      (fclamp (ctrl.mouse_delta_x * (ctrl.orbit_speed * ctrl.sensitivity * dt))
        (-(0.1 : ℝ)) 0.1)) = 1 :=
    from_axis_angle_magnitude _ _ h7
  have hlrn : V3.dot camera.last_right.normalize camera.last_right.normalize = 1 :=
    V3.dot_normalize_self _ (V3.dot_self_pos _ h6)
  have hpq : quatMagnitude (from_axis_angle camera.last_right.normalize
      (fclamp (if ctrl.orbit_invert_y
          then ctrl.mouse_delta_y * (ctrl.orbit_speed * ctrl.sensitivity * dt)
          else -ctrl.mouse_delta_y * (ctrl.orbit_speed * ctrl.sensitivity * dt))
        (-(0.1 : ℝ)) 0.1)) = 1 :=
    from_axis_angle_magnitude _ _ hlrn
  exact quatNormalize_magnitude _
    (mul_ne_zero (mul_ne_zero (ne_zero_of_quatMagnitude_eq_one _ hyq)
      (ne_zero_of_quatMagnitude_eq_one _ hpq)) h5)

/-- Concrete orbiting controller used by the C7 witness. -/
def ctrlOrbit : CameraController :=
  { CameraController.new 1 1 with is_orbiting := true, mouse_delta_x := 1 }

/-- Witness for C7 at the concrete controller `ctrlOrbit` and camera `camW`. -/
theorem orbit_clamped_normalized_witness :
    ∃ yaw_delta pitch_delta : ℝ,
      |yaw_delta| ≤ 0.1 ∧ |pitch_delta| ≤ 0.1 ∧
      (update_camera ctrlOrbit camW 1).2.orientation =
        quatNormalize (from_axis_angle camW.world_up yaw_delta *
          from_axis_angle camW.last_right.normalize pitch_delta *
          camW.orientation) ∧
      quatMagnitude ((update_camera ctrlOrbit camW 1).2.orientation) = 1 :=
  orbit_clamped_normalized ctrlOrbit camW 1 rfl (Or.inl (by norm_num [ctrlOrbit, CameraController.new]))
    rfl rfl one_ne_zero
    (by
      intro h0
      have := congrArg V3.x h0
      norm_num [camW] at this)
    (by norm_num [camW, V3.dot])

/-! ### Triangle predicates used to state the winding claim (C1)

These formalize the claim's words: the right-hand-rule normal of a triangle,
taken from its three vertex positions in index order, and the outward radial
direction at the triangle (the component of centroid − start orthogonal to
the cylinder axis). -/

/-- Right-hand-rule normal of a vertex triple: `(b − a) × (c − a)`. -/
def triNormal (t : V3 × V3 × V3) : V3 := V3.cross (t.2.1 - t.1) (t.2.2 - t.1)

/-- Centroid of a vertex triple. -/
def triCentroid (t : V3 × V3 × V3) : V3 := (1 / 3 : ℝ) • (t.1 + t.2.1 + t.2.2)

/-- Component of `g − base` orthogonal to the (unit) axis direction: the
outward radial direction at `g` for a cylinder through `base` along `axisv`. -/
def radialComponent (base axisv g : V3) : V3 :=
  (g - base) - V3.dot (g - base) axisv • axisv

/-- Position of vertex `k` of a pipe mesh (out-of-range indices default to 0). -/
def posAt (out : List PipeVertex × List ℕ) (k : ℕ) : V3 :=
  (out.1.getD k ⟨0, 0⟩).position

/-- The `j`-th emitted triangle of a pipe mesh: the vertex positions referenced
by index entries `3j, 3j+1, 3j+2`. -/
def nthTri (out : List PipeVertex × List ℕ) (j : ℕ) : V3 × V3 × V3 :=
  (posAt out (out.2.getD (3 * j) 0),
   posAt out (out.2.getD (3 * j + 1) 0),
   posAt out (out.2.getD (3 * j + 2) 0))

/-- Position of vertex `k` of a line-pipe mesh. -/
def posAtL (out : List LinePipeVertex × List ℕ) (k : ℕ) : V3 :=
  (out.1.getD k ⟨0, 0, 0⟩).position

/-- The `j`-th emitted triangle of a line-pipe mesh. -/
def nthTriL (out : List LinePipeVertex × List ℕ) (j : ℕ) : V3 × V3 × V3 :=
  (posAtL out (out.2.getD (3 * j) 0),
   posAtL out (out.2.getD (3 * j + 1) 0),
   posAtL out (out.2.getD (3 * j + 2) 0))

/-! ### getD lemmas for the generated lists -/

theorem getD_append_of_lt {α : Type} (l₁ l₂ : List α) (n : ℕ) (d : α)
    (h : n < l₁.length) : (l₁ ++ l₂).getD n d = l₁.getD n d := by
  simp [List.getD_eq_getElem?_getD, List.getElem?_append_left h]

theorem getD_append_of_le {α : Type} (l₁ l₂ : List α) (n : ℕ) (d : α)
    (h : l₁.length ≤ n) : (l₁ ++ l₂).getD n d = l₂.getD (n - l₁.length) d := by
  simp [List.getD_eq_getElem?_getD, List.getElem?_append_right h]

/-- Element lookup inside a flatMap of constant-size chunks. -/
theorem flatMap_chunk_getD {α : Type} (f : ℕ → List α) (c : ℕ)
    (hc : ∀ i, (f i).length = c) (n j k : ℕ) (hj : j < n) (hk : k < c) (d : α) :
    ((List.range n).flatMap f).getD (c * j + k) d = (f j).getD k d := by
  induction n with
  | zero => omega
  | succ n ih =>
    rw [List.range_succ, List.flatMap_append]
    rcases Nat.lt_or_ge j n with hjn | hjn
    · rw [getD_append_of_lt]
      · exact ih hjn
      · rw [length_flatMap_const f c n hc]
        have h1 : c * (j + 1) ≤ c * n := Nat.mul_le_mul_left c hjn
        have h2 : c * (j + 1) = c * j + c := by ring
        omega
    · have hj' : j = n := by omega
      subst hj'
      rw [getD_append_of_le]
      · rw [length_flatMap_const f c j hc]
        simp only [List.flatMap_cons, List.flatMap_nil, List.append_nil]
        congr 1
        omega
      · rw [length_flatMap_const f c j hc]
        omega

/-! ### The orthonormal frames chosen by the cylinder builders -/

/-- Cylinder axis of `create_cylinder_for_pipe` (model_pipe.rs line 286). -/
def pipeAxis (segment : PipeSegment) : V3 := (segment.end_ - segment.start).normalize

/-- Perpendicular chosen by `create_cylinder_for_pipe` (model_pipe.rs lines 290-296). -/
def pipePerp (segment : PipeSegment) : V3 :=
  if |(pipeAxis segment).z| < 0.9 then ((V3.mk 0 0 1).cross (pipeAxis segment)).normalize
  else ((V3.mk 1 0 0).cross (pipeAxis segment)).normalize

/-- Binormal of `create_cylinder_for_pipe` (model_pipe.rs line 299). -/
def pipeBinormal (segment : PipeSegment) : V3 :=
  ((pipeAxis segment).cross (pipePerp segment)).normalize

theorem create_cylinder_for_pipe_eq (segment : PipeSegment) (sides : ℕ)
    (h : ¬ (segment.end_ - segment.start).magnitude < 1e-6) :
    create_cylinder_for_pipe segment sides =
      (cylinderVertices segment sides (pipePerp segment) (pipeBinormal segment),
       bottomCapIndices sides ++ topCapIndices sides ++ sideIndicesPipe sides) := by
  simp only [create_cylinder_for_pipe, pipeAxis, pipePerp, pipeBinormal]
  rw [if_neg h]

/-- Cylinder axis of `create_cylinder_for_line` (pipe_line.rs line 125). -/
def lineAxis (segment : LineSegment) : V3 := (segment.end_ - segment.start).normalize

/-- Perpendicular chosen by `create_cylinder_for_line` (pipe_line.rs lines 129-133). -/
def linePerp (segment : LineSegment) : V3 :=
  if 0.5 < |(lineAxis segment).x| ∨ 0.5 < |(lineAxis segment).y| then
    (V3.mk (lineAxis segment).y (-(lineAxis segment).x) 0).normalize
  else (V3.mk 0 (lineAxis segment).z (-(lineAxis segment).y)).normalize

/-- Binormal of `create_cylinder_for_line` (pipe_line.rs line 134). -/
def lineBinormal (segment : LineSegment) : V3 :=
  ((lineAxis segment).cross (linePerp segment)).normalize

theorem create_cylinder_for_line_eq (segment : LineSegment) (sides : ℕ)
    (h : ¬ (segment.end_ - segment.start).magnitude < 1e-6) :
    create_cylinder_for_line segment sides =
      (cylinderVerticesLine segment sides (lineAxis segment) (linePerp segment)
        (lineBinormal segment),
       bottomCapIndices sides ++ topCapIndices sides ++ sideIndicesLine sides) := by
  simp only [create_cylinder_for_line, lineAxis, linePerp, lineBinormal]
  rw [if_neg h]

/-- The direction of a non-degenerate segment has positive self-dot. -/
theorem pipe_direction_dot_pos (segment : PipeSegment)
    (h : ¬ (segment.end_ - segment.start).magnitude < 1e-6) :
    0 < V3.dot (segment.end_ - segment.start) (segment.end_ - segment.start) := by
  have hm : (0 : ℝ) < (segment.end_ - segment.start).magnitude :=
    lt_of_lt_of_le (by norm_num) (not_lt.mp h)
  have := V3.magnitude_sq (segment.end_ - segment.start)
  nlinarith

theorem pipeAxis_unit (segment : PipeSegment)
    (h : ¬ (segment.end_ - segment.start).magnitude < 1e-6) :
    V3.dot (pipeAxis segment) (pipeAxis segment) = 1 :=
  V3.dot_normalize_self _ (pipe_direction_dot_pos segment h)

theorem pipePerp_unit (segment : PipeSegment)
    (h : ¬ (segment.end_ - segment.start).magnitude < 1e-6) :
    V3.dot (pipePerp segment) (pipePerp segment) = 1 := by
  have hA := pipeAxis_unit segment h
  have hAx : V3.dot (pipeAxis segment) (pipeAxis segment) =
      (pipeAxis segment).x ^ 2 + (pipeAxis segment).y ^ 2 + (pipeAxis segment).z ^ 2 := by
    simp [V3.dot]
    ring
  rw [pipePerp]
  split
  · rename_i hz
    apply V3.dot_normalize_self
    have hc : V3.dot ((V3.mk 0 0 1).cross (pipeAxis segment))
        ((V3.mk 0 0 1).cross (pipeAxis segment)) =
        (pipeAxis segment).x ^ 2 + (pipeAxis segment).y ^ 2 := by
      simp [V3.dot, V3.cross]
      ring
    rw [hc]
    have hzz : (pipeAxis segment).z ^ 2 < 0.81 := by
      nlinarith [sq_abs (pipeAxis segment).z, abs_nonneg (pipeAxis segment).z]
    nlinarith
  · rename_i hz
    push_neg at hz
    apply V3.dot_normalize_self
    have hc : V3.dot ((V3.mk 1 0 0).cross (pipeAxis segment))
        ((V3.mk 1 0 0).cross (pipeAxis segment)) =
        (pipeAxis segment).y ^ 2 + (pipeAxis segment).z ^ 2 := by
      simp [V3.dot, V3.cross]
      ring
    rw [hc]
    have hzz : (0.81 : ℝ) ≤ (pipeAxis segment).z ^ 2 := by
      nlinarith [sq_abs (pipeAxis segment).z, abs_nonneg (pipeAxis segment).z]
    nlinarith

theorem pipeAxis_dot_pipePerp (segment : PipeSegment) :
    V3.dot (pipeAxis segment) (pipePerp segment) = 0 := by
  rw [pipePerp]
  split <;>
    rw [V3.dot_comm, V3.dot_normalize_left, V3.cross_dot_right, mul_zero]

theorem pipeBinormal_eq (segment : PipeSegment)
    (h : ¬ (segment.end_ - segment.start).magnitude < 1e-6) :
    pipeBinormal segment = (pipeAxis segment).cross (pipePerp segment) := by
  rw [pipeBinormal]
  apply V3.normalize_of_unit
  rw [V3.lagrange_identity, pipeAxis_unit segment h, pipePerp_unit segment h,
    pipeAxis_dot_pipePerp segment]
  norm_num

/-! ### Abstract triangle geometry over an orthonormal frame -/

theorem V3.cross_sub_left (a b c : V3) : V3.cross (a - b) c = V3.cross a c - V3.cross b c := by
  ext <;> simp [V3.cross] <;> ring

theorem V3.smul_smul_v (r s : ℝ) (a : V3) : r • (s • a) = (r * s) • a := by
  ext <;> simp <;> ring

theorem V3.cross_antisymm (a b : V3) : V3.cross a b = -V3.cross b a := by
  ext <;> simp [V3.cross] <;> ring

/-- `(a × b) × c = (c·a)·b − (c·b)·a` (pure componentwise identity). -/
theorem V3.triple_product_right (a b c : V3) :
    V3.cross (V3.cross a b) c = V3.dot c a • b - V3.dot c b • a := by
  ext <;> simp [V3.cross, V3.dot] <;> ring

/-- In an orthonormal frame, `P × (A × P) = A`. -/
theorem cross_P_B (A P : V3) (hP : V3.dot P P = 1) (hAP : V3.dot A P = 0) :
    V3.cross P (V3.cross A P) = A := by
  rw [V3.triple_product, hP, V3.dot_comm P A, hAP]
  ext <;> simp

/-- In an orthonormal frame, `(A × P) × A = P`. -/
theorem cross_B_A (A P : V3) (hA : V3.dot A A = 1) (hAP : V3.dot A P = 0) :
    V3.cross (V3.cross A P) A = P := by
  rw [V3.triple_product_right, hA, hAP]
  ext <;> simp

/-- In an orthonormal frame, `A × (A × P) = −P`. -/
theorem cross_A_B (A P : V3) (hA : V3.dot A A = 1) (hAP : V3.dot A P = 0) :
    V3.cross A (V3.cross A P) = -P := by
  rw [V3.triple_product, hA, hAP]
  ext <;> simp

theorem dot_B_B (A P : V3) (hA : V3.dot A A = 1) (hP : V3.dot P P = 1)
    (hAP : V3.dot A P = 0) : V3.dot (V3.cross A P) (V3.cross A P) = 1 := by
  rw [V3.lagrange_identity, hA, hP, hAP]
  norm_num

/-- Normal of a cap triangle `(center, rim₂, rim₁)`: a signed multiple of the
axis direction. -/
theorem capTriNormal (A P base : V3) (r x1 y1 x2 y2 : ℝ)
    (hP : V3.dot P P = 1) (hAP : V3.dot A P = 0) :
    triNormal (base,
        base + r • (x2 • P + y2 • V3.cross A P),
        base + r • (x1 • P + y1 • V3.cross A P)) =
      (r ^ 2 * (x2 * y1 - y2 * x1)) • A := by
  have e1 : (base + r • (x2 • P + y2 • V3.cross A P)) - base
      = (r * x2) • P + (r * y2) • V3.cross A P := by
    ext <;> simp <;> ring
  have e2 : (base + r • (x1 • P + y1 • V3.cross A P)) - base
      = (r * x1) • P + (r * y1) • V3.cross A P := by
    ext <;> simp <;> ring
  show V3.cross ((base + r • (x2 • P + y2 • V3.cross A P)) - base)
      ((base + r • (x1 • P + y1 • V3.cross A P)) - base) = _
  rw [e1, e2, V3.cross_lincomb, cross_P_B A P hP hAP]
  congr 1
  ring

/-- Normal of the first side-wall triangle of model_pipe.rs
`(bottom₁, bottom₂, top₁)`. -/
theorem sideTri1Normal (A P base : V3) (r m x1 y1 x2 y2 : ℝ)
    (hA : V3.dot A A = 1) (hAP : V3.dot A P = 0) :
    triNormal (base + r • (x1 • P + y1 • V3.cross A P),
        base + r • (x2 • P + y2 • V3.cross A P),
        base + m • A + r • (x1 • P + y1 • V3.cross A P)) =
      (r * (y2 - y1) * m) • P - (r * (x2 - x1) * m) • V3.cross A P := by
  have e1 : (base + r • (x2 • P + y2 • V3.cross A P))
        - (base + r • (x1 • P + y1 • V3.cross A P))
      = (r * (x2 - x1)) • P + (r * (y2 - y1)) • V3.cross A P := by
    ext <;> simp <;> ring
  have e2 : (base + m • A + r • (x1 • P + y1 • V3.cross A P))
        - (base + r • (x1 • P + y1 • V3.cross A P)) = m • A := by
    ext <;> simp
  show V3.cross _ _ = _
  rw [e1, e2, V3.cross_add_left, V3.cross_smul_left, V3.cross_smul_left,
    V3.cross_smul_right, V3.cross_smul_right, V3.cross_antisymm P A,
    cross_B_A A P hA hAP]
  ext <;> simp <;> ring

/-- Normal of the second side-wall triangle of model_pipe.rs
`(top₁, bottom₂, top₂)`: the same vector as for the first. -/
theorem sideTri2Normal (A P base : V3) (r m x1 y1 x2 y2 : ℝ)
    (hA : V3.dot A A = 1) (hAP : V3.dot A P = 0) :
    triNormal (base + m • A + r • (x1 • P + y1 • V3.cross A P),
        base + r • (x2 • P + y2 • V3.cross A P),
        base + m • A + r • (x2 • P + y2 • V3.cross A P)) =
      (r * (y2 - y1) * m) • P - (r * (x2 - x1) * m) • V3.cross A P := by
  have e1 : (base + r • (x2 • P + y2 • V3.cross A P))
        - (base + m • A + r • (x1 • P + y1 • V3.cross A P))
      = ((r * (x2 - x1)) • P + (r * (y2 - y1)) • V3.cross A P) - m • A := by
    ext <;> simp <;> ring
  have e2 : (base + m • A + r • (x2 • P + y2 • V3.cross A P))
        - (base + m • A + r • (x1 • P + y1 • V3.cross A P))
      = (r * (x2 - x1)) • P + (r * (y2 - y1)) • V3.cross A P := by
    ext <;> simp <;> ring
  show V3.cross _ _ = _
  rw [e1, e2, V3.cross_sub_left, V3.cross_self, V3.cross_smul_left,
    V3.cross_add_right, V3.cross_smul_right, V3.cross_smul_right,
    cross_A_B A P hA hAP]
  ext <;> simp <;> ring

theorem dot_P_B (A P : V3) : V3.dot P (V3.cross A P) = 0 := by
  rw [V3.dot_comm]
  exact V3.cross_dot_right A P

theorem dot_B_A (A P : V3) : V3.dot (V3.cross A P) A = 0 := V3.cross_dot_left A P

/-- Outward dot product of the first side-wall triangle: its right-hand normal
dotted with the radial component of its centroid. -/
theorem sideTri1_dot (A P base : V3) (r m x1 y1 x2 y2 : ℝ)
    (hA : V3.dot A A = 1) (hP : V3.dot P P = 1) (hAP : V3.dot A P = 0) :
    V3.dot
      (triNormal (base + r • (x1 • P + y1 • V3.cross A P),
        base + r • (x2 • P + y2 • V3.cross A P),
        base + m • A + r • (x1 • P + y1 • V3.cross A P)))
      (radialComponent base A
        (triCentroid (base + r • (x1 • P + y1 • V3.cross A P),
          base + r • (x2 • P + y2 • V3.cross A P),
          base + m • A + r • (x1 • P + y1 • V3.cross A P)))) =
      r ^ 2 * m * (y2 * x1 - x2 * y1) := by
  have hn := sideTri1Normal A P base r m x1 y1 x2 y2 hA hAP
  have eg : triCentroid (base + r • (x1 • P + y1 • V3.cross A P),
        base + r • (x2 • P + y2 • V3.cross A P),
        base + m • A + r • (x1 • P + y1 • V3.cross A P)) - base
      = (r * (2 * x1 + x2) / 3) • P + (r * (2 * y1 + y2) / 3) • V3.cross A P
        + (m / 3) • A := by
    ext <;> simp [triCentroid] <;> ring
  have hdg : V3.dot (triCentroid (base + r • (x1 • P + y1 • V3.cross A P),
        base + r • (x2 • P + y2 • V3.cross A P),
        base + m • A + r • (x1 • P + y1 • V3.cross A P)) - base) A = m / 3 := by
    rw [eg]
    simp only [V3.dot_add_left, V3.dot_smul_left]
    rw [V3.dot_comm P A, hAP, dot_B_A A P, hA]
    ring
  have erad : radialComponent base A
      (triCentroid (base + r • (x1 • P + y1 • V3.cross A P),
        base + r • (x2 • P + y2 • V3.cross A P),
        base + m • A + r • (x1 • P + y1 • V3.cross A P)))
      = (r * (2 * x1 + x2) / 3) • P + (r * (2 * y1 + y2) / 3) • V3.cross A P := by
    rw [radialComponent, hdg, eg]
    ext <;> simp
  rw [hn, erad]
  simp only [V3.dot_sub_left, V3.dot_add_right, V3.dot_smul_left, V3.dot_smul_right,
    hP, dot_P_B A P, dot_B_B A P hA hP hAP, V3.dot_comm (V3.cross A P) P]
  ring

/-- Outward dot product of the second side-wall triangle. -/
theorem sideTri2_dot (A P base : V3) (r m x1 y1 x2 y2 : ℝ)
    (hA : V3.dot A A = 1) (hP : V3.dot P P = 1) (hAP : V3.dot A P = 0) :
    V3.dot
      (triNormal (base + m • A + r • (x1 • P + y1 • V3.cross A P),
        base + r • (x2 • P + y2 • V3.cross A P),
        base + m • A + r • (x2 • P + y2 • V3.cross A P)))
      (radialComponent base A
        (triCentroid (base + m • A + r • (x1 • P + y1 • V3.cross A P),
          base + r • (x2 • P + y2 • V3.cross A P),
          base + m • A + r • (x2 • P + y2 • V3.cross A P)))) =
      r ^ 2 * m * (y2 * x1 - x2 * y1) := by
  have hn := sideTri2Normal A P base r m x1 y1 x2 y2 hA hAP
  have eg : triCentroid (base + m • A + r • (x1 • P + y1 • V3.cross A P),
        base + r • (x2 • P + y2 • V3.cross A P),
        base + m • A + r • (x2 • P + y2 • V3.cross A P)) - base
      = (r * (x1 + 2 * x2) / 3) • P + (r * (y1 + 2 * y2) / 3) • V3.cross A P
        + (2 * m / 3) • A := by
    ext <;> simp [triCentroid] <;> ring
  have hdg : V3.dot (triCentroid (base + m • A + r • (x1 • P + y1 • V3.cross A P),
        base + r • (x2 • P + y2 • V3.cross A P),
        base + m • A + r • (x2 • P + y2 • V3.cross A P)) - base) A = 2 * m / 3 := by
    rw [eg]
    simp only [V3.dot_add_left, V3.dot_smul_left]
    rw [V3.dot_comm P A, hAP, dot_B_A A P, hA]
    ring
  have erad : radialComponent base A
      (triCentroid (base + m • A + r • (x1 • P + y1 • V3.cross A P),
        base + r • (x2 • P + y2 • V3.cross A P),
        base + m • A + r • (x2 • P + y2 • V3.cross A P)))
      = (r * (x1 + 2 * x2) / 3) • P + (r * (y1 + 2 * y2) / 3) • V3.cross A P := by
    rw [radialComponent, hdg, eg]
    ext <;> simp
  rw [hn, erad]
  simp only [V3.dot_sub_left, V3.dot_add_right, V3.dot_smul_left, V3.dot_smul_right,
    hP, dot_P_B A P, dot_B_B A P hA hP hAP, V3.dot_comm (V3.cross A P) P]
  ring

/-! ### Vertex and index lookups in the generated cylinder mesh -/

theorem cylinderVertices_getD_botCenter (segment : PipeSegment) (sides : ℕ) (P B : V3)
    (d : PipeVertex) :
    (cylinderVertices segment sides P B).getD 0 d = ⟨segment.start, segment.color⟩ := rfl

theorem rim_getD (f : ℕ → PipeVertex) (sides i : ℕ) (hi : i < sides) (d : PipeVertex) :
    ((List.range sides).map f).getD i d = f i := by
  simp [List.getD_eq_getElem?_getD, List.getElem?_range, hi]

theorem cylinderVertices_getD_rimB (segment : PipeSegment) (sides : ℕ) (P B : V3)
    (i : ℕ) (hi : i < sides) (d : PipeVertex) :
    (cylinderVertices segment sides P B).getD (1 + i) d =
      ⟨rimVertexPos segment.start segment.radius P B sides i, segment.color⟩ := by
  rw [cylinderVertices]
  simp only [List.cons_append, List.nil_append]
  have h1 : 1 + i = i + 1 := by omega
  rw [h1, List.getD_cons_succ]
  rw [getD_append_of_lt _ _ _ _ (by simp; omega)]
  rw [getD_append_of_lt _ _ _ _ (by simp [hi])]
  exact rim_getD _ sides i hi d

theorem cylinderVertices_getD_topCenter (segment : PipeSegment) (sides : ℕ) (P B : V3)
    (d : PipeVertex) :
    (cylinderVertices segment sides P B).getD (1 + sides) d =
      ⟨segment.end_, segment.color⟩ := by
  rw [cylinderVertices]
  simp only [List.cons_append, List.nil_append]
  have h1 : 1 + sides = sides + 1 := by omega
  rw [h1, List.getD_cons_succ]
  rw [getD_append_of_lt _ _ _ _ (by simp)]
  rw [getD_append_of_le _ _ _ _ (by simp)]
  simp

theorem cylinderVertices_getD_rimT (segment : PipeSegment) (sides : ℕ) (P B : V3)
    (i : ℕ) (hi : i < sides) (d : PipeVertex) :
    (cylinderVertices segment sides P B).getD (1 + sides + 1 + i) d =
      ⟨rimVertexPos segment.end_ segment.radius P B sides i, segment.color⟩ := by
  rw [cylinderVertices]
  simp only [List.cons_append, List.nil_append]
  have h1 : 1 + sides + 1 + i = (sides + 1 + i) + 1 := by omega
  rw [h1, List.getD_cons_succ]
  rw [getD_append_of_le _ _ _ _ (by
    simp only [List.length_append, List.length_map, List.length_range, List.length_cons,
      List.length_nil]
    omega)]
  simp only [List.length_append, List.length_map, List.length_range, List.length_cons,
    List.length_nil]
  have h2 : sides + 1 + i - (sides + (0 + 1)) = i := by omega
  rw [h2]
  exact rim_getD _ sides i hi d

/-- Index entries of the bottom-cap region of the emitted index list. -/
theorem pipeIndices_bot (sides i k : ℕ) (hi : i < sides) (hk : k < 3) :
    (bottomCapIndices sides ++ topCapIndices sides ++ sideIndicesPipe sides).getD
        (3 * i + k) 0 =
      [0, 1 + (i + 1) % sides, 1 + i].getD k 0 := by
  rw [List.append_assoc, getD_append_of_lt _ _ _ _ (by rw [length_bottomCapIndices]; omega),
    bottomCapIndices]
  exact flatMap_chunk_getD (fun i => [0, 1 + (i + 1) % sides, 1 + i]) 3
    (fun _ => rfl) sides i k hi hk 0

/-- Index entries of the top-cap region of the emitted index list. -/
theorem pipeIndices_top (sides i k : ℕ) (hi : i < sides) (hk : k < 3) :
    (bottomCapIndices sides ++ topCapIndices sides ++ sideIndicesPipe sides).getD
        (3 * (sides + i) + k) 0 =
      [1 + sides, 1 + sides + 1 + i, 1 + sides + 1 + (i + 1) % sides].getD k 0 := by
  rw [List.append_assoc, getD_append_of_le _ _ _ _ (by rw [length_bottomCapIndices]; omega)]
  rw [getD_append_of_lt _ _ _ _
    (by rw [length_bottomCapIndices, length_topCapIndices]; omega)]
  rw [length_bottomCapIndices]
  have h1 : 3 * (sides + i) + k - 3 * sides = 3 * i + k := by omega
  rw [h1, topCapIndices]
  exact flatMap_chunk_getD
    (fun i => [1 + sides, 1 + sides + 1 + i, 1 + sides + 1 + (i + 1) % sides]) 3
    (fun _ => rfl) sides i k hi hk 0

/-- Index entries of the side-wall region of the emitted index list. -/
theorem pipeIndices_side (sides i k : ℕ) (hi : i < sides) (hk : k < 6) :
    (bottomCapIndices sides ++ topCapIndices sides ++ sideIndicesPipe sides).getD
        (6 * sides + (6 * i + k)) 0 =
      [1 + i, 1 + (i + 1) % sides, 1 + sides + 1 + i,
       1 + sides + 1 + i, 1 + (i + 1) % sides, 1 + sides + 1 + (i + 1) % sides].getD k 0 := by
  rw [List.append_assoc, getD_append_of_le _ _ _ _ (by rw [length_bottomCapIndices]; omega)]
  rw [getD_append_of_le _ _ _ _
    (by rw [length_bottomCapIndices, length_topCapIndices]; omega)]
  rw [length_bottomCapIndices, length_topCapIndices]
  have h1 : 6 * sides + (6 * i + k) - 3 * sides - 3 * sides = 6 * i + k := by omega
  rw [h1, sideIndicesPipe]
  exact flatMap_chunk_getD
    (fun i => [1 + i, 1 + (i + 1) % sides, 1 + sides + 1 + i,
      1 + sides + 1 + i, 1 + (i + 1) % sides, 1 + sides + 1 + (i + 1) % sides]) 6
    (fun _ => rfl) sides i k hi hk 0

/-- Unwrapping the `(i+1) % sides` rim vertex through the `2π` period of
`cos`/`sin`. -/
theorem rimVertexPos_mod (base : V3) (r : ℝ) (P B : V3) (sides i : ℕ) (hi : i < sides) :
    rimVertexPos base r P B sides ((i + 1) % sides) =
      base + r • (Real.cos (((i : ℝ) + 1) * 2 * Real.pi / (sides : ℝ)) • P +
        Real.sin (((i : ℝ) + 1) * 2 * Real.pi / (sides : ℝ)) • B) := by
  rcases Nat.lt_or_ge (i + 1) sides with hlt | hge
  · rw [Nat.mod_eq_of_lt hlt]
    simp only [rimVertexPos]
    have hc : ((i + 1 : ℕ) : ℝ) * 2 * Real.pi / (sides : ℝ) =
        ((i : ℝ) + 1) * 2 * Real.pi / (sides : ℝ) := by
      push_cast
      ring
    rw [hc]
  · have he : i + 1 = sides := by omega
    have hs0 : 0 < sides := by omega
    have hsr : (sides : ℝ) ≠ 0 := by
      exact_mod_cast Nat.pos_iff_ne_zero.mp hs0
    rw [he, Nat.mod_self]
    simp only [rimVertexPos]
    have ha : ((i : ℝ) + 1) * 2 * Real.pi / (sides : ℝ) = 2 * Real.pi := by
      have : ((i : ℝ) + 1) = (sides : ℝ) := by
        rw [← he]
        push_cast
        ring
      rw [this]
      field_simp
      ring
    rw [ha]
    simp [Real.cos_two_pi, Real.sin_two_pi]

/-! ### Claim C1: triangle winding of the pipe cylinder builder -/

set_option maxHeartbeats 2000000 in
/-- C1 amended: for every segment of positive radius and length at least the
epsilon, and every `sides ≥ 3`, every triangle emitted by
`create_cylinder_for_pipe` is wound counter-clockwise as seen from outside the
cylinder: for bottom-cap triangles the right-hand-rule normal (vertex
positions taken in index order) is a negative multiple of the axis, for
top-cap triangles a positive multiple, and for both side-wall triangles of
each quad the normal has positive dot product with the outward radial
direction at the triangle's centroid.  (`create_cylinder_for_line` violates
this: see the counterexample.) -/
theorem pipe_triangles_ccw (segment : PipeSegment) (sides : ℕ)
    (h : ¬ (segment.end_ - segment.start).magnitude < 1e-6)
    (hr : 0 < segment.radius) (hs3 : 3 ≤ sides) :
    ∀ i, i < sides →
      (V3.dot (triNormal (nthTri (create_cylinder_for_pipe segment sides) i))
          (pipeAxis segment) < 0 ∧
        V3.cross (triNormal (nthTri (create_cylinder_for_pipe segment sides) i))
          (pipeAxis segment) = 0) ∧
      (0 < V3.dot (triNormal (nthTri (create_cylinder_for_pipe segment sides) (sides + i)))
          (pipeAxis segment) ∧
        V3.cross (triNormal (nthTri (create_cylinder_for_pipe segment sides) (sides + i)))
          (pipeAxis segment) = 0) ∧
      0 < V3.dot
          (triNormal (nthTri (create_cylinder_for_pipe segment sides) (2 * sides + 2 * i)))
          (radialComponent segment.start (pipeAxis segment)
            (triCentroid (nthTri (create_cylinder_for_pipe segment sides) (2 * sides + 2 * i)))) ∧
      0 < V3.dot
          (triNormal (nthTri (create_cylinder_for_pipe segment sides) (2 * sides + 2 * i + 1)))
          (radialComponent segment.start (pipeAxis segment)
            (triCentroid (nthTri (create_cylinder_for_pipe segment sides) (2 * sides + 2 * i + 1)))) := by
  intro i hi
  have hA := pipeAxis_unit segment h
  have hP := pipePerp_unit segment h
  have hAP := pipeAxis_dot_pipePerp segment
  have hm : 0 < (segment.end_ - segment.start).magnitude :=
    lt_of_lt_of_le (by norm_num) (not_lt.mp h)
  have hm0 : (segment.end_ - segment.start).magnitude ≠ 0 := ne_of_gt hm
  have hs0 : 0 < sides := by omega
  have hmod : (i + 1) % sides < sides := Nat.mod_lt _ hs0
  have heq : create_cylinder_for_pipe segment sides =
      (cylinderVertices segment sides (pipePerp segment)
        ((pipeAxis segment).cross (pipePerp segment)),
       bottomCapIndices sides ++ topCapIndices sides ++ sideIndicesPipe sides) := by
    rw [create_cylinder_for_pipe_eq segment sides h, pipeBinormal_eq segment h]
  have hEnd : segment.end_ = segment.start +
      (segment.end_ - segment.start).magnitude • pipeAxis segment := by
    rw [pipeAxis, V3.normalize]
    ext <;> (simp; field_simp)
  have hs3' : (3 : ℝ) ≤ (sides : ℝ) := by exact_mod_cast hs3
  have hsin : 0 < Real.sin (2 * Real.pi / (sides : ℝ)) := by
    apply Real.sin_pos_of_pos_of_lt_pi
    · positivity
    · rw [div_lt_iff₀ (by linarith)]
      nlinarith [Real.pi_pos]
  have hδ : ((i : ℝ) + 1) * 2 * Real.pi / (sides : ℝ) - (i : ℝ) * 2 * Real.pi / (sides : ℝ)
      = 2 * Real.pi / (sides : ℝ) := by
    ring
  have hsin12 : Real.sin (((i : ℝ) + 1) * 2 * Real.pi / (sides : ℝ)) *
        Real.cos ((i : ℝ) * 2 * Real.pi / (sides : ℝ)) -
      Real.cos (((i : ℝ) + 1) * 2 * Real.pi / (sides : ℝ)) *
        Real.sin ((i : ℝ) * 2 * Real.pi / (sides : ℝ))
      = Real.sin (2 * Real.pi / (sides : ℝ)) := by
    rw [← hδ, Real.sin_sub]
  have hI0 : (bottomCapIndices sides ++ topCapIndices sides ++ sideIndicesPipe sides).getD
      (3 * i) 0 = 0 := by
    simpa using pipeIndices_bot sides i 0 hi (by norm_num)
  have hI1 : (bottomCapIndices sides ++ topCapIndices sides ++ sideIndicesPipe sides).getD
      (3 * i + 1) 0 = 1 + (i + 1) % sides := by
    simpa using pipeIndices_bot sides i 1 hi (by norm_num)
  have hI2 : (bottomCapIndices sides ++ topCapIndices sides ++ sideIndicesPipe sides).getD
      (3 * i + 2) 0 = 1 + i := by
    simpa using pipeIndices_bot sides i 2 hi (by norm_num)
  have htriB : nthTri (create_cylinder_for_pipe segment sides) i =
      (segment.start,
       segment.start + segment.radius •
         (Real.cos (((i : ℝ) + 1) * 2 * Real.pi / (sides : ℝ)) • pipePerp segment +
          Real.sin (((i : ℝ) + 1) * 2 * Real.pi / (sides : ℝ)) •
            ((pipeAxis segment).cross (pipePerp segment))),
       segment.start + segment.radius •
         (Real.cos ((i : ℝ) * 2 * Real.pi / (sides : ℝ)) • pipePerp segment +
          Real.sin ((i : ℝ) * 2 * Real.pi / (sides : ℝ)) •
            ((pipeAxis segment).cross (pipePerp segment)))) := by
    rw [heq]
    simp only [nthTri, posAt]
    rw [hI0, hI1, hI2, cylinderVertices_getD_botCenter,
      cylinderVertices_getD_rimB _ _ _ _ _ hmod _,
      cylinderVertices_getD_rimB _ _ _ _ i hi _,
      rimVertexPos_mod _ _ _ _ sides i hi]
    rfl
  have hnB := capTriNormal (pipeAxis segment) (pipePerp segment) segment.start
    segment.radius
    (Real.cos ((i : ℝ) * 2 * Real.pi / (sides : ℝ)))
    (Real.sin ((i : ℝ) * 2 * Real.pi / (sides : ℝ)))
    (Real.cos (((i : ℝ) + 1) * 2 * Real.pi / (sides : ℝ)))
    (Real.sin (((i : ℝ) + 1) * 2 * Real.pi / (sides : ℝ))) hP hAP
  have hJ0 : (bottomCapIndices sides ++ topCapIndices sides ++ sideIndicesPipe sides).getD
      (3 * (sides + i)) 0 = 1 + sides := by
    simpa using pipeIndices_top sides i 0 hi (by norm_num)
  have hJ1 : (bottomCapIndices sides ++ topCapIndices sides ++ sideIndicesPipe sides).getD
      (3 * (sides + i) + 1) 0 = 1 + sides + 1 + i := by
    simpa using pipeIndices_top sides i 1 hi (by norm_num)
  have hJ2 : (bottomCapIndices sides ++ topCapIndices sides ++ sideIndicesPipe sides).getD
      (3 * (sides + i) + 2) 0 = 1 + sides + 1 + (i + 1) % sides := by
    simpa using pipeIndices_top sides i 2 hi (by norm_num)
  have htriT : nthTri (create_cylinder_for_pipe segment sides) (sides + i) =
      (segment.end_,
       segment.end_ + segment.radius •
         (Real.cos ((i : ℝ) * 2 * Real.pi / (sides : ℝ)) • pipePerp segment +
          Real.sin ((i : ℝ) * 2 * Real.pi / (sides : ℝ)) •
            ((pipeAxis segment).cross (pipePerp segment))),
       segment.end_ + segment.radius •
         (Real.cos (((i : ℝ) + 1) * 2 * Real.pi / (sides : ℝ)) • pipePerp segment +
          Real.sin (((i : ℝ) + 1) * 2 * Real.pi / (sides : ℝ)) •
            ((pipeAxis segment).cross (pipePerp segment)))) := by
    rw [heq]
    simp only [nthTri, posAt]
    rw [hJ0, hJ1, hJ2, cylinderVertices_getD_topCenter,
      cylinderVertices_getD_rimT _ _ _ _ i hi _,
      cylinderVertices_getD_rimT _ _ _ _ _ hmod _,
      rimVertexPos_mod _ _ _ _ sides i hi]
    rfl
  have hnT := capTriNormal (pipeAxis segment) (pipePerp segment) segment.end_
    segment.radius
    (Real.cos (((i : ℝ) + 1) * 2 * Real.pi / (sides : ℝ)))
    (Real.sin (((i : ℝ) + 1) * 2 * Real.pi / (sides : ℝ)))
    (Real.cos ((i : ℝ) * 2 * Real.pi / (sides : ℝ)))
    (Real.sin ((i : ℝ) * 2 * Real.pi / (sides : ℝ))) hP hAP
  have hK0 : (bottomCapIndices sides ++ topCapIndices sides ++ sideIndicesPipe sides).getD
      (3 * (2 * sides + 2 * i)) 0 = 1 + i := by
    have e : 3 * (2 * sides + 2 * i) = 6 * sides + (6 * i + 0) := by ring
    rw [e]
    simpa using pipeIndices_side sides i 0 hi (by norm_num)
  have hK1 : (bottomCapIndices sides ++ topCapIndices sides ++ sideIndicesPipe sides).getD
      (3 * (2 * sides + 2 * i) + 1) 0 = 1 + (i + 1) % sides := by
    have e : 3 * (2 * sides + 2 * i) + 1 = 6 * sides + (6 * i + 1) := by ring
    rw [e]
    simpa using pipeIndices_side sides i 1 hi (by norm_num)
  have hK2 : (bottomCapIndices sides ++ topCapIndices sides ++ sideIndicesPipe sides).getD
      (3 * (2 * sides + 2 * i) + 2) 0 = 1 + sides + 1 + i := by
    have e : 3 * (2 * sides + 2 * i) + 2 = 6 * sides + (6 * i + 2) := by ring
    rw [e]
    simpa using pipeIndices_side sides i 2 hi (by norm_num)
  have hK3 : (bottomCapIndices sides ++ topCapIndices sides ++ sideIndicesPipe sides).getD
      (3 * (2 * sides + 2 * i + 1)) 0 = 1 + sides + 1 + i := by
    have e : 3 * (2 * sides + 2 * i + 1) = 6 * sides + (6 * i + 3) := by ring
    rw [e]
    simpa using pipeIndices_side sides i 3 hi (by norm_num)
  have hK4 : (bottomCapIndices sides ++ topCapIndices sides ++ sideIndicesPipe sides).getD
      (3 * (2 * sides + 2 * i + 1) + 1) 0 = 1 + (i + 1) % sides := by
    have e : 3 * (2 * sides + 2 * i + 1) + 1 = 6 * sides + (6 * i + 4) := by ring
    rw [e]
    simpa using pipeIndices_side sides i 4 hi (by norm_num)
  have hK5 : (bottomCapIndices sides ++ topCapIndices sides ++ sideIndicesPipe sides).getD
      (3 * (2 * sides + 2 * i + 1) + 2) 0 = 1 + sides + 1 + (i + 1) % sides := by
    have e : 3 * (2 * sides + 2 * i + 1) + 2 = 6 * sides + (6 * i + 5) := by ring
    rw [e]
    simpa using pipeIndices_side sides i 5 hi (by norm_num)
  have htriS1 : nthTri (create_cylinder_for_pipe segment sides) (2 * sides + 2 * i) =
      (segment.start + segment.radius •
         (Real.cos ((i : ℝ) * 2 * Real.pi / (sides : ℝ)) • pipePerp segment +
          Real.sin ((i : ℝ) * 2 * Real.pi / (sides : ℝ)) •
            ((pipeAxis segment).cross (pipePerp segment))),
       segment.start + segment.radius •
         (Real.cos (((i : ℝ) + 1) * 2 * Real.pi / (sides : ℝ)) • pipePerp segment +
          Real.sin (((i : ℝ) + 1) * 2 * Real.pi / (sides : ℝ)) •
            ((pipeAxis segment).cross (pipePerp segment))),
       segment.end_ +
         segment.radius •
         (Real.cos ((i : ℝ) * 2 * Real.pi / (sides : ℝ)) • pipePerp segment +
          Real.sin ((i : ℝ) * 2 * Real.pi / (sides : ℝ)) •
            ((pipeAxis segment).cross (pipePerp segment)))) := by
    rw [heq]
    simp only [nthTri, posAt]
    rw [hK0, hK1, hK2, cylinderVertices_getD_rimB _ _ _ _ i hi _,
      cylinderVertices_getD_rimB _ _ _ _ _ hmod _,
      cylinderVertices_getD_rimT _ _ _ _ i hi _,
      rimVertexPos_mod _ _ _ _ sides i hi]
    rfl
  have htriS2 : nthTri (create_cylinder_for_pipe segment sides) (2 * sides + 2 * i + 1) =
      (segment.end_ +
         segment.radius •
         (Real.cos ((i : ℝ) * 2 * Real.pi / (sides : ℝ)) • pipePerp segment +
          Real.sin ((i : ℝ) * 2 * Real.pi / (sides : ℝ)) •
            ((pipeAxis segment).cross (pipePerp segment))),
       segment.start + segment.radius •
         (Real.cos (((i : ℝ) + 1) * 2 * Real.pi / (sides : ℝ)) • pipePerp segment +
          Real.sin (((i : ℝ) + 1) * 2 * Real.pi / (sides : ℝ)) •
            ((pipeAxis segment).cross (pipePerp segment))),
       segment.end_ +
         segment.radius •
         (Real.cos (((i : ℝ) + 1) * 2 * Real.pi / (sides : ℝ)) • pipePerp segment +
          Real.sin (((i : ℝ) + 1) * 2 * Real.pi / (sides : ℝ)) •
            ((pipeAxis segment).cross (pipePerp segment)))) := by
    rw [heq]
    simp only [nthTri, posAt]
    rw [hK3, hK4, hK5, cylinderVertices_getD_rimT _ _ _ _ i hi _,
      cylinderVertices_getD_rimB _ _ _ _ _ hmod _,
      cylinderVertices_getD_rimT _ _ _ _ _ hmod _,
      rimVertexPos_mod segment.start _ _ _ sides i hi,
      rimVertexPos_mod segment.end_ _ _ _ sides i hi]
    rfl
  have hdS1 := sideTri1_dot (pipeAxis segment) (pipePerp segment) segment.start
    segment.radius ((segment.end_ - segment.start).magnitude)
    (Real.cos ((i : ℝ) * 2 * Real.pi / (sides : ℝ)))
    (Real.sin ((i : ℝ) * 2 * Real.pi / (sides : ℝ)))
    (Real.cos (((i : ℝ) + 1) * 2 * Real.pi / (sides : ℝ)))
    (Real.sin (((i : ℝ) + 1) * 2 * Real.pi / (sides : ℝ))) hA hP hAP
  have hdS2 := sideTri2_dot (pipeAxis segment) (pipePerp segment) segment.start
    segment.radius ((segment.end_ - segment.start).magnitude)
    (Real.cos ((i : ℝ) * 2 * Real.pi / (sides : ℝ)))
    (Real.sin ((i : ℝ) * 2 * Real.pi / (sides : ℝ)))
    (Real.cos (((i : ℝ) + 1) * 2 * Real.pi / (sides : ℝ)))
    (Real.sin (((i : ℝ) + 1) * 2 * Real.pi / (sides : ℝ))) hA hP hAP
  refine ⟨⟨?_, ?_⟩, ⟨?_, ?_⟩, ?_, ?_⟩
  · rw [htriB, hnB, V3.dot_smul_left, hA, mul_one]
    nlinarith [pow_pos hr 2, hsin, hsin12]
  · rw [htriB, hnB, V3.cross_smul_left, V3.cross_self]
    ext <;> simp
  · rw [htriT, hnT, V3.dot_smul_left, hA, mul_one]
    nlinarith [pow_pos hr 2, hsin, hsin12]
  · rw [htriT, hnT, V3.cross_smul_left, V3.cross_self]
    ext <;> simp
  · rw [htriS1, hEnd, hdS1, hsin12]
    exact mul_pos (mul_pos (pow_pos hr 2) hm) hsin
  · rw [htriS2, hEnd, hdS2, hsin12]
    exact mul_pos (mul_pos (pow_pos hr 2) hm) hsin

/-- Witness for the amended C1 at the concrete segment `segZ` with `sides = 4`,
for the first triangle of each family (`i = 0`). -/
theorem pipe_triangles_ccw_witness :
    (V3.dot (triNormal (nthTri (create_cylinder_for_pipe segZ 4) 0)) (pipeAxis segZ) < 0 ∧
      V3.cross (triNormal (nthTri (create_cylinder_for_pipe segZ 4) 0)) (pipeAxis segZ) = 0) ∧
    (0 < V3.dot (triNormal (nthTri (create_cylinder_for_pipe segZ 4) (4 + 0))) (pipeAxis segZ) ∧
      V3.cross (triNormal (nthTri (create_cylinder_for_pipe segZ 4) (4 + 0))) (pipeAxis segZ) = 0) ∧
    0 < V3.dot (triNormal (nthTri (create_cylinder_for_pipe segZ 4) (2 * 4 + 2 * 0)))
        (radialComponent segZ.start (pipeAxis segZ)
          (triCentroid (nthTri (create_cylinder_for_pipe segZ 4) (2 * 4 + 2 * 0)))) ∧
    0 < V3.dot (triNormal (nthTri (create_cylinder_for_pipe segZ 4) (2 * 4 + 2 * 0 + 1)))
        (radialComponent segZ.start (pipeAxis segZ)
          (triCentroid (nthTri (create_cylinder_for_pipe segZ 4) (2 * 4 + 2 * 0 + 1)))) :=
  pipe_triangles_ccw segZ 4 segZ_not_degenerate (by norm_num [segZ]) (by norm_num) 0
    (by norm_num)

/-- C1 counterexample: the original claim also covers `create_cylinder_for_line`
(pipe_line.rs), but there the FIRST side-wall triangle emitted for the
unit-Z segment with `sides = 4` and radius 1 has a right-hand-rule normal with
NEGATIVE dot product against the outward radial direction at its centroid:
the side wall is wound clockwise as seen from outside. -/
theorem line_side_winding_counterexample :
    V3.dot (triNormal (nthTriL (create_cylinder_for_line seglZ 4) (2 * 4)))
      (radialComponent seglZ.start (lineAxis seglZ)
        (triCentroid (nthTriL (create_cylinder_for_line seglZ 4) (2 * 4)))) < 0 := by
  have heq := create_cylinder_for_line_eq seglZ 4 seglZ_not_degenerate
  have hd : seglZ.end_ - seglZ.start = V3.mk 0 0 1 := by ext <;> simp [seglZ]
  have hax : lineAxis seglZ = V3.mk 0 0 1 := by
    rw [lineAxis, hd, V3.normalize, magnitude_e3]
    ext <;> simp
  have hperp : linePerp seglZ = V3.mk 0 1 0 := by
    rw [linePerp, hax]
    rw [if_neg (by norm_num)]
    have hm1 : (V3.mk (0:ℝ) 1 (-0)).magnitude = 1 := by
      simp [V3.magnitude, V3.dot]
    rw [V3.normalize]
    simp only [V3.mk_y, V3.mk_z, V3.mk_x]
    rw [hm1]
    ext <;> simp
  have hbin : lineBinormal seglZ = V3.mk (-1) 0 0 := by
    rw [lineBinormal, hax, hperp]
    have hc : (V3.mk (0:ℝ) 0 1).cross (V3.mk 0 1 0) = V3.mk (-1) 0 0 := by
      ext <;> simp [V3.cross]
    rw [hc, V3.normalize]
    have hm1 : (V3.mk (-1:ℝ) 0 0).magnitude = 1 := by
      simp [V3.magnitude, V3.dot]
    rw [hm1]
    ext <;> simp
  have h24 : (bottomCapIndices 4 ++ topCapIndices 4 ++ sideIndicesLine 4).getD (3 * (2 * 4)) 0
      = 1 := by decide
  have h25 : (bottomCapIndices 4 ++ topCapIndices 4 ++ sideIndicesLine 4).getD
      (3 * (2 * 4) + 1) 0 = 6 := by decide
  have h26 : (bottomCapIndices 4 ++ topCapIndices 4 ++ sideIndicesLine 4).getD
      (3 * (2 * 4) + 2) 0 = 7 := by decide
  have hrim0 : rimVertexPos seglZ.start seglZ.radius (V3.mk 0 1 0) (V3.mk (-1) 0 0) 4 0
      = V3.mk 0 1 0 := by
    simp only [rimVertexPos]
    ext <;> simp [seglZ]
  have hrimT0 : rimVertexPos seglZ.end_ seglZ.radius (V3.mk 0 1 0) (V3.mk (-1) 0 0) 4 0
      = V3.mk 0 1 1 := by
    simp only [rimVertexPos]
    ext <;> simp [seglZ]
  have hangle : ((1 : ℕ) : ℝ) * 2 * Real.pi / ((4 : ℕ) : ℝ) = Real.pi / 2 := by
    push_cast
    ring
  have hrimT1 : rimVertexPos seglZ.end_ seglZ.radius (V3.mk 0 1 0) (V3.mk (-1) 0 0) 4 1
      = V3.mk (-1) 0 1 := by
    simp only [rimVertexPos]
    rw [hangle, Real.cos_pi_div_two, Real.sin_pi_div_two]
    ext <;> simp [seglZ]
  have htri : nthTriL (create_cylinder_for_line seglZ 4) (2 * 4) =
      (V3.mk 0 1 0, V3.mk 0 1 1, V3.mk (-1) 0 1) := by
    rw [nthTriL, heq, hax, hperp, hbin]
    simp only [posAtL]
    rw [h24, h25, h26]
    show ((cylinderVerticesLine seglZ 4 (V3.mk 0 0 1) (V3.mk 0 1 0) (V3.mk (-1) 0 0)).getD
        1 ⟨0, 0, 0⟩ |>.position, _, _) = _
    have hv1 : (cylinderVerticesLine seglZ 4 (V3.mk 0 0 1) (V3.mk 0 1 0)
        (V3.mk (-1) 0 0)).getD 1 ⟨0, 0, 0⟩ =
        ⟨rimVertexPos seglZ.start seglZ.radius (V3.mk 0 1 0) (V3.mk (-1) 0 0) 4 0,
         -(V3.mk 0 0 1), seglZ.color⟩ := rfl
    have hv6 : (cylinderVerticesLine seglZ 4 (V3.mk 0 0 1) (V3.mk 0 1 0)
        (V3.mk (-1) 0 0)).getD 6 ⟨0, 0, 0⟩ =
        ⟨rimVertexPos seglZ.end_ seglZ.radius (V3.mk 0 1 0) (V3.mk (-1) 0 0) 4 0,
         V3.mk 0 0 1, seglZ.color⟩ := rfl
    have hv7 : (cylinderVerticesLine seglZ 4 (V3.mk 0 0 1) (V3.mk 0 1 0)
        (V3.mk (-1) 0 0)).getD 7 ⟨0, 0, 0⟩ =
        ⟨rimVertexPos seglZ.end_ seglZ.radius (V3.mk 0 1 0) (V3.mk (-1) 0 0) 4 1,
         V3.mk 0 0 1, seglZ.color⟩ := rfl
    rw [hv1, hv6, hv7]
    simp only [hrim0, hrimT0, hrimT1]
  rw [htri, hax]
  have hn : triNormal (V3.mk 0 1 0, V3.mk 0 1 1, V3.mk (-1) 0 1) = V3.mk 1 (-1) 0 := by
    rw [triNormal]
    ext <;> simp [V3.cross]
  have hg : triCentroid (V3.mk 0 1 0, V3.mk 0 1 1, V3.mk (-1) 0 1)
      = V3.mk (-(1 / 3)) (2 / 3) (2 / 3) := by
    rw [triCentroid]
    ext <;> simp <;> norm_num
  rw [hn, hg]
  have hs : seglZ.start = V3.mk 0 0 0 := rfl
  rw [hs, radialComponent]
  have hsub : V3.mk (-(1 / 3) : ℝ) (2 / 3) (2 / 3) - V3.mk 0 0 0
      = V3.mk (-(1 / 3)) (2 / 3) (2 / 3) := by
    ext <;> simp
  rw [hsub]
  have hda : V3.dot (V3.mk (-(1 / 3) : ℝ) (2 / 3) (2 / 3)) (V3.mk 0 0 1) = 2 / 3 := by
    simp [V3.dot]
  rw [hda]
  have hrad : V3.mk (-(1 / 3) : ℝ) (2 / 3) (2 / 3) - (2 / 3 : ℝ) • V3.mk 0 0 1
      = V3.mk (-(1 / 3)) (2 / 3) 0 := by
    ext <;> simp
  rw [hrad]
  simp [V3.dot]
  norm_num

/-! ### Claim C8: zoom distance always clamped to [0.5, 100] -/

theorem zoom_apply_distance_mem (cam : Camera) (s zs : ℝ) :
    MIN_ZOOM_DISTANCE ≤ (zoom_apply cam s zs).distance ∧
    (zoom_apply cam s zs).distance ≤ MAX_ZOOM_DISTANCE := by
  rw [zoom_apply_distance]
  exact ⟨le_min (le_max_right _ _) (by norm_num [MIN_ZOOM_DISTANCE, MAX_ZOOM_DISTANCE]),
    min_le_right _ _⟩

/-- C8: whenever the zoom branch fires (`scroll ≠ 0`, with no pending reset),
the camera distance after `update_camera` lies in
`[MIN_ZOOM_DISTANCE, MAX_ZOOM_DISTANCE] = [0.5, 100]`; and along every
sequence of zoom steps, with arbitrary scroll deltas of either sign and any
magnitude, the distance lies in that interval after every step — the
out-of-range value is silently clamped, never reported as an error. -/
theorem zoom_distance_always_clamped :
    (∀ (ctrl : CameraController) (camera : Camera) (dt : ℝ),
        ctrl.scroll ≠ 0 → ctrl.reset_camera_pressed = false →
        MIN_ZOOM_DISTANCE ≤ (update_camera ctrl camera dt).2.distance ∧
          (update_camera ctrl camera dt).2.distance ≤ MAX_ZOOM_DISTANCE) ∧
    (∀ (camera : Camera) (zoom_speed : ℝ) (deltas : List ℝ),
        ∀ c ∈ zoomSeq camera zoom_speed deltas,
          MIN_ZOOM_DISTANCE ≤ c.distance ∧ c.distance ≤ MAX_ZOOM_DISTANCE) := by
  constructor
  · intro ctrl camera dt hs hr
    have hzoom : zoom_step ctrl
        (orbit_step ctrl (mouse_pan_step ctrl (keyboard_pan_step ctrl camera dt)) dt) =
        ({ ctrl with scroll := 0 },
         zoom_apply (orbit_step ctrl (mouse_pan_step ctrl (keyboard_pan_step ctrl camera dt)) dt)
           ctrl.scroll ctrl.zoom_speed) := by
      rw [zoom_step, if_pos hs]
    have hfinal : (update_camera ctrl camera dt).2 =
        zoom_apply (orbit_step ctrl (mouse_pan_step ctrl (keyboard_pan_step ctrl camera dt)) dt)
          ctrl.scroll ctrl.zoom_speed := by
      have hr2 : ({ ctrl with scroll := 0 } : CameraController).reset_camera_pressed = false := hr
      simp only [update_camera]
      rw [hzoom]
      rw [reset_step_of_not_pressed _ _ hr2]
    rw [hfinal]
    exact zoom_apply_distance_mem _ _ _
  · intro camera zoom_speed deltas
    induction deltas generalizing camera with
    | nil => intro c hc; simp [zoomSeq] at hc
    | cons d ds ih =>
      intro c hc
      rw [zoomSeq] at hc
      rcases List.mem_cons.mp hc with rfl | hc
      · exact zoom_apply_distance_mem _ _ _
      · exact ih _ c hc

/-- Concrete scrolling controller used by the C8 witness. -/
def ctrlZoom : CameraController := { CameraController.new 1 1 with scroll := 1 }

/-- Witness for C8: a single `update_camera` zoom at `ctrlZoom`, and the first
step of a concrete zoom sequence with a large delta. -/
theorem zoom_distance_always_clamped_witness :
    (MIN_ZOOM_DISTANCE ≤ (update_camera ctrlZoom camW 1).2.distance ∧
      (update_camera ctrlZoom camW 1).2.distance ≤ MAX_ZOOM_DISTANCE) ∧
    (MIN_ZOOM_DISTANCE ≤ (zoom_apply camW 5000 0.05).distance ∧
      (zoom_apply camW 5000 0.05).distance ≤ MAX_ZOOM_DISTANCE) :=
  ⟨zoom_distance_always_clamped.1 ctrlZoom camW 1
      (by norm_num [ctrlZoom, CameraController.new]) rfl,
   zoom_distance_always_clamped.2 camW 0.05 [5000] (zoom_apply camW 5000 0.05)
      (by rw [zoomSeq]; exact List.mem_cons_self _ _)⟩

end
